import Mathlib

set_option maxHeartbeats 2000000
set_option maxRecDepth 10000

/- Verification development for the Monkey lexer/parser (Go packages
   `token`, `lexer`, `ast`, `parser`).  The Go code is shallowly embedded:
   pure functions become Lean functions, the lexer's cursor state becomes an
   explicit structure, the parser's token/diagnostic state is threaded
   explicitly, Go `nil` interface values become `Option`, a Go panic becomes
   an explicit error result, and the parser's mutual recursion is driven by a
   fuel parameter (with a separate theorem showing the chosen fuel always
   suffices, i.e. the Go loops terminate). -/

namespace Monkey

/-- Go `token.Type` is a string type; modelled as `String`. -/
abbrev TokType := String

/-- Go `token.ILLEGAL`. -/
def ILLEGAL : TokType := "ILLEGAL"

/-- Go `token.EOF`. -/
def EOF : TokType := "EOF"

/-- Go `token.IDENT`. -/
def IDENT : TokType := "IDENT"

/-- Go `token.INT`. -/
def INT : TokType := "INT"

/-- Go `token.ASSIGN`. -/
def ASSIGN : TokType := "="

/-- Go `token.PLUS`. -/
def PLUS : TokType := "+"

/-- Go `token.MINUS`. -/
def MINUS : TokType := "-"

/-- Go `token.SLASH`. -/
def SLASH : TokType := "/"

/-- Go `token.ASTERISK`. -/
def ASTERISK : TokType := "*"

/-- Go `token.BANG`. -/
def BANG : TokType := "!"

/-- Go `token.LT` (named `LTtk` here because `LT` is a Lean class name). -/
def LTtk : TokType := "<"

/-- Go `token.GT` (named `GTtk` here because `GT` is a Lean class name). -/
def GTtk : TokType := ">"

/-- Go `token.EQ`. -/
def EQtk : TokType := "=="

/-- Go `token.NOTEQ`. -/
def NOTEQ : TokType := "!="

/-- Go `token.COMMA`. -/
def COMMA : TokType := ","

/-- Go `token.SEMICOLON`. -/
def SEMICOLON : TokType := ";"

/-- Go `token.LPAREN`. -/
def LPAREN : TokType := "("

/-- Go `token.RPAREN`. -/
def RPAREN : TokType := ")"

/-- Go `token.LBRACE`. -/
def LBRACE : TokType := "\x7b"

/-- Go `token.RBRACE`. -/
def RBRACE : TokType := "\x7d"

/-- Go `token.TRUE`. -/
def TRUE : TokType := "TRUE"

/-- Go `token.FALSE`. -/
def FALSE : TokType := "FALSE"

/-- Go `token.FUNCTION`. -/
def FUNCTION : TokType := "FUNCTION"

/-- Go `token.LET`. -/
def LET : TokType := "LET"

/-- Go `token.IF`. -/
def IF : TokType := "IF"

/-- Go `token.ELSE`. -/
def ELSE : TokType := "ELSE"

/-- Go `token.RETURN`. -/
def RETURN : TokType := "RETURN"

/-- Go `token.Token`: a kind tag plus the exact lexeme text. -/
structure Token where
  type : TokType
  literal : String
deriving Repr, DecidableEq

/-- Go `token.GetTokenType`: keyword table lookup, defaulting to `IDENT`.
The Go map `keywords` is modelled as a chain of comparisons. -/
def GetTokenType (identifier : String) : TokType :=
  if identifier = "let" then LET
  else if identifier = "fn" then FUNCTION
  else if identifier = "if" then IF
  else if identifier = "else" then ELSE
  else if identifier = "return" then RETURN
  else if identifier = "true" then TRUE
  else if identifier = "false" then FALSE
  else IDENT

/-- Go `token.GetSingleCharToken`: the `singleCharTokens` map, `ILLEGAL`
when absent. -/
def GetSingleCharToken (ch : Char) : TokType :=
  if ch = ',' then COMMA
  else if ch = ';' then SEMICOLON
  else if ch = '(' then LPAREN
  else if ch = ')' then RPAREN
  else if ch = '{' then LBRACE
  else if ch = '}' then RBRACE
  else if ch = '=' then ASSIGN
  else if ch = '+' then PLUS
  else if ch = '-' then MINUS
  else if ch = '*' then ASTERISK
  else if ch = '/' then SLASH
  else if ch = '!' then BANG
  else if ch = '<' then LTtk
  else if ch = '>' then GTtk
  else ILLEGAL

/-- Go `token.GetTwoCharToken`: the `twoCharTokens` map, `ILLEGAL` when
absent. -/
def GetTwoCharToken (s : String) : TokType :=
  if s = "==" then EQtk
  else if s = "!=" then NOTEQ
  else ILLEGAL

/-- The Go lexer reads bytes from an ASCII string and uses the 0 byte as its
end sentinel; source characters are modelled as `Char` with `NUL` as the
sentinel value that Go's `l.ch = 0` denotes. -/
def NUL : Char := '\x00'

/-- Go `lexer.Lexer`: input plus cursor (`position`, one-char lookahead
`nextPosition`) and the cached current character `ch`. -/
structure Lexer where
  input : List Char
  position : Nat
  nextPosition : Nat
  ch : Char
deriving Repr, DecidableEq

/-- Go `(*Lexer).consumeNextChar`. -/
def consumeNextChar (l : Lexer) : Lexer :=
  let position := l.nextPosition
  let nextPosition :=
    if l.nextPosition < l.input.length then l.nextPosition + 1 else l.nextPosition
  let ch := if h : position < l.input.length then l.input.get ⟨position, h⟩ else NUL
  { l with position := position, nextPosition := nextPosition, ch := ch }

/-- Go `lexer.New`: zero-value struct plus one `consumeNextChar`. -/
def lexerNew (input : List Char) : Lexer :=
  consumeNextChar { input := input, position := 0, nextPosition := 0, ch := NUL }

/-- Go `(*Lexer).peekNextChar`. -/
def peekNextChar (l : Lexer) : Char :=
  if h : l.nextPosition < l.input.length then l.input.get ⟨l.nextPosition, h⟩ else NUL

/-- Go `isWhitespace`. -/
def isWhitespace (ch : Char) : Bool :=
  ch == ' ' || ch == '\t' || ch == '\r' || ch == '\n'

/-- Go `isDigit`. -/
def isDigit (ch : Char) : Bool :=
  decide ('0' ≤ ch) && decide (ch ≤ '9')

/-- Go `isCharacter` (ASCII letters only). -/
def isCharacter (ch : Char) : Bool :=
  (decide ('a' ≤ ch) && decide (ch ≤ 'z')) || (decide ('A' ≤ ch) && decide (ch ≤ 'Z'))

/-- Bounded unfolding of the Go `consumeWhitespaces` loop; the bound is
only a modelling device, `consumeWhitespaces` below instantiates it so that
it never bites on reachable lexer states (each iteration moves the cursor
right by one). -/
def consumeWhitespacesAux : Nat → Lexer → Lexer
  | 0, l => l
  | n + 1, l =>
    if l.ch != NUL && isWhitespace l.ch then consumeWhitespacesAux n (consumeNextChar l)
    else l

/-- Go `(*Lexer).consumeWhitespaces`. -/
def consumeWhitespaces (l : Lexer) : Lexer :=
  consumeWhitespacesAux (l.input.length + 1 - l.position) l

/-- Bounded unfolding of the character-run loops in `literalsLexlet` and
`identifiersAndKeywordsLexlet` (`for pred(l.ch) { l.consumeNextChar() }`). -/
def readRunAux (pred : Char → Bool) : Nat → Lexer → Lexer
  | 0, l => l
  | n + 1, l => if pred l.ch then readRunAux pred n (consumeNextChar l) else l

/-- Runs a maximal character run for `pred`, as the Go run loops do. -/
def readRun (pred : Char → Bool) (l : Lexer) : Lexer :=
  readRunAux pred (l.input.length + 1 - l.position) l

/-- Go `eofLexlet`: fires on the 0 sentinel, leaving the state unchanged. -/
def eofLexlet (l : Lexer) : Option (Token × Lexer) :=
  if l.ch ≠ NUL then none
  else some ({ type := EOF, literal := "" }, l)

/-- Go `twoCharLexlet`. -/
def twoCharLexlet (l : Lexer) : Option (Token × Lexer) :=
  let chars := String.mk [l.ch, peekNextChar l]
  let typ := GetTwoCharToken chars
  if typ = ILLEGAL then none
  else some ({ type := typ, literal := chars }, consumeNextChar (consumeNextChar l))

/-- Go `singleCharLexlet`. -/
def singleCharLexlet (l : Lexer) : Option (Token × Lexer) :=
  let typ := GetSingleCharToken l.ch
  if typ = ILLEGAL then none
  else some ({ type := typ, literal := String.mk [l.ch] }, consumeNextChar l)

/-- Go `literalsLexlet`: a maximal digit run becomes an `INT` token whose
literal is the raw slice `l.input[pos:l.position]`. -/
def literalsLexlet (l : Lexer) : Option (Token × Lexer) :=
  if l.ch == NUL || !isDigit l.ch then none
  else
    let pos := l.position
    let l2 := readRun isDigit l
    let literal := String.mk ((l.input.drop pos).take (l2.position - pos))
    some ({ type := INT, literal := literal }, l2)

/-- Go `identifiersAndKeywordsLexlet`: a maximal letter run, classified by
the keyword table. -/
def identifiersAndKeywordsLexlet (l : Lexer) : Option (Token × Lexer) :=
  if l.ch == NUL || !isCharacter l.ch then none
  else
    let pos := l.position
    let l2 := readRun isCharacter l
    let ident := String.mk ((l.input.drop pos).take (l2.position - pos))
    some ({ type := GetTokenType ident, literal := ident }, l2)

/-- The lexlet scan of Go `(*Lexer).NextToken` (the loop over `lexlets` in
registration order, with the single-character `ILLEGAL` fallback). -/
def runLexlets (l : Lexer) : Token × Lexer :=
  match eofLexlet l with
  | some r => r
  | none =>
    match twoCharLexlet l with
    | some r => r
    | none =>
      match singleCharLexlet l with
      | some r => r
      | none =>
        match literalsLexlet l with
        | some r => r
        | none =>
          match identifiersAndKeywordsLexlet l with
          | some r => r
          | none => ({ type := ILLEGAL, literal := String.mk [l.ch] }, consumeNextChar l)

/-- Go `(*Lexer).NextToken`: skip whitespace, then try the lexlets in
their registration order. -/
def NextToken (l : Lexer) : Token × Lexer :=
  runLexlets (consumeWhitespaces l)

/-- Bounded unfolding of repeated `NextToken` calls collecting the token
stream up to (excluding) the first `EOF` token. -/
def lexAllAux : Nat → Lexer → List Token
  | 0, _ => []
  | n + 1, l =>
    let r := NextToken l
    if r.1.type = EOF then [] else r.1 :: lexAllAux n r.2

/-- The whole token stream of an input, as the parser would pull it.  Every
non-`EOF` `NextToken` call advances the cursor by at least one character, so
`length + 1` rounds of `NextToken` always reach `EOF`. -/
def lexAll (input : List Char) : List Token :=
  lexAllAux (input.length + 1) (lexerNew input)

/-- Go `ast.Identifier` (used both as an expression and as a function
parameter). -/
structure Identifier where
  token : Token
  value : String
deriving Repr, DecidableEq

/- The Go AST interfaces `ast.Expression` / `ast.Statement` are modelled as
inductives; a Go `nil` interface value in a child slot is `Option.none`.
`ast.BlockStatement` gets its own type `Block` because `IfExpression` and
`FunctionLiteral` hold it directly (after the Go type assertion).  The
constructor names follow the node names (`preE` for `PrefixExpression`,
`infE` for `InfixExpression`). -/
mutual

inductive Expr : Type where
  | identE (i : Identifier)
  | intLit (token : Token) (value : Int)
  | boolLit (token : Token) (value : Bool)
  | preE (token : Token) (operator : String) (right : Option Expr)
  | infE (token : Token) (left : Option Expr) (operator : String) (right : Option Expr)
  | ifE (token : Token) (condition : Option Expr) (consequence : Block)
        (alternative : Option Block)
  | funcLit (token : Token) (params : List Identifier) (body : Block)
  | callE (token : Token) (function : Expr) (arguments : List Expr)

inductive Stmt : Type where
  | letS (token : Token) (name : Identifier) (value : Option Expr)
  | returnS (token : Token) (returnValue : Option Expr)
  | exprS (token : Token) (expression : Option Expr)
  | blockS (b : Block)

inductive Block : Type where
  | mk (token : Token) (statements : List (Option Stmt))

end

/-- Go `strings.Join` with a separator. -/
def joinSep (sep : String) : List String → String
  | [] => ""
  | [s] => s
  | s :: rest => s ++ sep ++ joinSep sep (rest)

/- The `String()` methods of the AST nodes.  Calling `String()` through a
`nil` interface value or dereferencing a `nil` child panics in Go; that
panic is modelled by `none`.  Mandatory children go through `optRenderExpr`
(`nil` panics), children that Go guards with a `!= nil` test go through
`optRenderOptExpr` / `optRenderAlt` (`nil` renders as the absent branch). -/
mutual

/-- `String()` of an expression node. -/
def renderExpr : Expr → Option String
  | .identE i => some i.value
  | .intLit tok _ => some tok.literal
  | .boolLit tok _ => some tok.literal
  | .preE _ op r =>
    match optRenderExpr r with
    | none => none
    | some s => some ("(" ++ op ++ s ++ ")")
  | .infE _ l op r =>
    match optRenderExpr l with
    | none => none
    | some ls =>
      match optRenderExpr r with
      | none => none
      | some rs => some ("(" ++ ls ++ " " ++ op ++ " " ++ rs ++ ")")
  | .ifE _ c cons alt =>
    match optRenderExpr c with
    | none => none
    | some cs =>
      match renderBlock cons with
      | none => none
      | some conss =>
        match optRenderAlt alt with
        | none => none
        | some none => some ("if" ++ cs ++ " " ++ conss)
        | some (some alts) => some ("if" ++ cs ++ " " ++ conss ++ "else " ++ alts)
  | .funcLit tok params body =>
    match renderBlock body with
    | none => none
    | some bs =>
      some (tok.literal ++ "(" ++ joinSep ", " (params.map (fun p => p.value)) ++ ") " ++ bs)
  | .callE _ f args =>
    match renderExpr f with
    | none => none
    | some fs =>
      match renderExprList args with
      | none => none
      | some argss => some (fs ++ "(" ++ joinSep ", " argss ++ ")")

/-- `String()` of a mandatory expression child (a `nil` child panics). -/
def optRenderExpr : Option Expr → Option String
  | none => none
  | some e => renderExpr e

/-- Rendering of a guarded optional expression child (the Go `!= nil`
check): `some none` means the child is absent and the guard skips it. -/
def optRenderOptExpr : Option Expr → Option (Option String)
  | none => some none
  | some e =>
    match renderExpr e with
    | none => none
    | some s => some (some s)

/-- Rendering of the guarded `else` block: `some none` means no `else`. -/
def optRenderAlt : Option Block → Option (Option String)
  | none => some none
  | some b =>
    match renderBlock b with
    | none => none
    | some s => some (some s)

/-- `String()` of a statement node. -/
def renderStmt : Stmt → Option String
  | .letS tok name v =>
    match optRenderOptExpr v with
    | none => none
    | some none => some (tok.literal ++ " " ++ name.value ++ " = " ++ ";")
    | some (some s) => some (tok.literal ++ " " ++ name.value ++ " = " ++ s ++ ";")
  | .returnS tok v =>
    match optRenderOptExpr v with
    | none => none
    | some none => some (tok.literal ++ " " ++ ";")
    | some (some s) => some (tok.literal ++ " " ++ s ++ ";")
  | .exprS _ e =>
    match optRenderOptExpr e with
    | none => none
    | some none => some ""
    | some (some s) => some s
  | .blockS b => renderBlock b

/-- `String()` of a block: the statements' texts concatenated. -/
def renderBlock : Block → Option String
  | .mk _ stmts => renderStmts stmts

/-- `String()` of a statement slice entry: a `nil` statement panics. -/
def optRenderStmt : Option Stmt → Option String
  | none => none
  | some s => renderStmt s

/-- Concatenation of statement renderings (shared by `Program.String` and
`BlockStatement.String`). -/
def renderStmts : List (Option Stmt) → Option String
  | [] => some ""
  | s :: rest =>
    match optRenderStmt s with
    | none => none
    | some a =>
      match renderStmts rest with
      | none => none
      | some b => some (a ++ b)

/-- Renders each call argument in order. -/
def renderExprList : List Expr → Option (List String)
  | [] => some []
  | e :: rest =>
    match renderExpr e with
    | none => none
    | some a =>
      match renderExprList rest with
      | none => none
      | some b => some (a :: b)

end

/-- Go `(*Program).String`: concatenation of the statements' texts. -/
def renderProgram (stmts : List (Option Stmt)) : Option String :=
  renderStmts stmts

/-- Go `fmt.Sprintf("%v", tok)` for a `token.Token` struct value: the fields
in braces separated by a space. -/
def fmtToken (t : Token) : String :=
  "\x7b" ++ t.type ++ " " ++ t.literal ++ "\x7d"

/-- Hex digit for `goQuote` escapes (lowercase, as Go emits). -/
def hexDigit (n : Nat) : Char :=
  if n < 10 then Char.ofNat (48 + n) else Char.ofNat (87 + n)

/-- Escape of one character inside Go `%q` (`strconv.Quote`), for the ASCII
range this program's lexemes live in. -/
def goQuoteChar (c : Char) : String :=
  if c = '"' then "\\\""
  else if c = '\\' then "\\\\"
  else if c = '\t' then "\\t"
  else if c = '\n' then "\\n"
  else if c = '\r' then "\\r"
  else if c.toNat = 7 then "\\a"
  else if c.toNat = 8 then "\\b"
  else if c.toNat = 12 then "\\f"
  else if c.toNat = 11 then "\\v"
  else if 32 ≤ c.toNat && c.toNat ≤ 126 then String.mk [c]
  else "\\x" ++ String.mk [hexDigit (c.toNat / 16 % 16), hexDigit (c.toNat % 16)]

/-- Go `fmt.Sprintf("%q", s)` (double-quoted Go string literal). -/
def goQuote (s : String) : String :=
  "\"" ++ joinSep "" (s.data.map goQuoteChar) ++ "\""

/-- Numeric value of a character as a digit, as `strconv` accepts them. -/
def goDigitVal (c : Char) : Option Nat :=
  if decide ('0' ≤ c) && decide (c ≤ '9') then some (c.toNat - 48)
  else if decide ('a' ≤ c) && decide (c ≤ 'z') then some (c.toNat - 97 + 10)
  else if decide ('A' ≤ c) && decide (c ≤ 'Z') then some (c.toNat - 65 + 10)
  else none

/-- Digit accumulation for `goParseInt`: `none` on an empty digit string or
any digit not valid for the base. -/
def goParseDigits (base : Nat) : List Char → Option Nat
  | [] => none
  | cs => go cs 0
where
  go : List Char → Nat → Option Nat
    | [], acc => some acc
    | c :: rest, acc =>
      match goDigitVal c with
      | none => none
      | some d => if d < base then go rest (acc * base + d) else none

/-- Models the Go standard library call `strconv.ParseInt(s, 0, 64)` as the
parser uses it: optional sign, base detection from a `0`/`0b`/`0o`/`0x`
leading marker (a bare leading `0` means octal), then digit accumulation,
with `none` for any syntax error or a value outside the signed 64-bit
range.  (Digit-group underscores are not modelled; the lexer only ever
produces bare digit runs.) -/
def goParseInt (s : String) : Option Int :=
  match s.data with
  | [] => none
  | c :: cs =>
    let signedPart : Bool × List Char :=
      if c = '-' then (true, cs) else if c = '+' then (false, cs) else (false, c :: cs)
    let neg := signedPart.1
    let basedPart : Nat × List Char :=
      match signedPart.2 with
      | '0' :: d :: rest =>
        if d = 'b' ∨ d = 'B' then (2, rest)
        else if d = 'o' ∨ d = 'O' then (8, rest)
        else if d = 'x' ∨ d = 'X' then (16, rest)
        else (8, d :: rest)
      | other => (10, other)
    match goParseDigits basedPart.1 basedPart.2 with
    | none => none
    | some n =>
      if neg then
        if n ≤ 2 ^ 63 then some (-(n : Int)) else none
      else
        if n ≤ 2 ^ 63 - 1 then some (n : Int) else none

/-- The parser's Pratt precedence levels (Go `iota` constants). -/
def LOWEST : Nat := 1

/-- Precedence of `==` and `!=`. -/
def EQUALS : Nat := 2

/-- Precedence of `<` and `>`. -/
def LESSGREATER : Nat := 3

/-- Precedence of `+` and binary `-`. -/
def SUM : Nat := 4

/-- Precedence of `*` and `/`. -/
def PRODUCT : Nat := 5

/-- Precedence of unary `-` and `!`. -/
def PREC_UNARY : Nat := 6

/-- Precedence reserved for calls (defined but never entered in the
precedence table). -/
def CALL : Nat := 7

/-- Go `precedences` map combined with the `getCurrentPrecedence` default:
unlisted token types map to `LOWEST`. -/
def tokenPrecedence (t : TokType) : Nat :=
  if t = EQtk then EQUALS
  else if t = NOTEQ then EQUALS
  else if t = LTtk then LESSGREATER
  else if t = GTtk then LESSGREATER
  else if t = PLUS then SUM
  else if t = MINUS then SUM
  else if t = SLASH then PRODUCT
  else if t = ASTERISK then PRODUCT
  else LOWEST

/-- The parser state: the not-yet-consumed token stream (the Go parser's
`currentToken` is its head, with the lexer's eternal `EOF` token standing
for an empty list) and the accumulated diagnostics (`p.errors`). -/
structure PState where
  toks : List Token
  errors : List String
deriving Repr, DecidableEq

/-- The token the Go lexer returns forever once the source is exhausted. -/
def eofToken : Token := { type := EOF, literal := "" }

/-- `p.currentToken`. -/
def currentToken (st : PState) : Token :=
  st.toks.headD eofToken

/-- Go `(*Parser).consumeNextToken`: a no-op once `currentToken` is `EOF`,
otherwise shift by one token. -/
def consumeNextToken (st : PState) : PState :=
  if (currentToken st).type = EOF then st
  else { st with toks := st.toks.tail }

/-- Go `(*Parser).addError`. -/
def addError (err : String) (st : PState) : PState :=
  { st with errors := st.errors ++ [err] }

/-- Go `(*Parser).getCurrentPrecedence`. -/
def getCurrentPrecedence (st : PState) : Nat :=
  tokenPrecedence (currentToken st).type

/-- Go `(*Parser).consumeToken`: diagnose a kind mismatch but advance either
way. -/
def consumeToken (t : TokType) (st : PState) : PState :=
  let st :=
    if (currentToken st).type ≠ t then
      addError ("Could not properly consume token: " ++ fmtToken (currentToken st) ++
        " expected: " ++ t) st
    else st
  consumeNextToken st

/-- Go `(*Parser).parseIdentifier`, which builds an `Identifier` from the
current token whatever its kind and always advances; the expression wrapper
is added at the call sites (the Go call sites that need the `*Identifier`
itself perform a type assertion that always succeeds). -/
def parseIdentifier (st : PState) : Identifier × PState :=
  (⟨currentToken st, (currentToken st).literal⟩, consumeNextToken st)

/-- Go `(*Parser).parseIntegerLiteral`.  Note the Go code consumes the token
before checking the `strconv.ParseInt` error, so the diagnostic quotes the
literal of the token after the integer. -/
def parseIntegerLiteral (st : PState) : Option Expr × PState :=
  let tok := currentToken st
  let val := goParseInt tok.literal
  let st := consumeNextToken st
  match val with
  | none =>
    (none, addError ("Could not parse " ++ goQuote (currentToken st).literal ++
      " as integer") st)
  | some v => (some (.intLit tok v), st)

/-- Go `(*Parser).parseBooleanLiteral`. -/
def parseBooleanLiteral (st : PState) : Option Expr × PState :=
  let tok := currentToken st
  let e : Expr := .boolLit tok (tok.type = TRUE)
  (some e, consumeNextToken st)

/-- Result of a parser routine: a value plus the threaded state, a Go
panic, or exhaustion of the modelling fuel (which a later theorem shows the
chosen top-level fuel never reaches). -/
inductive PRes (α : Type) where
  | ok (a : α) (st : PState)
  | goPanic (msg : String)
  | fuelOut
deriving Repr, DecidableEq

/-- Sequencing of parser results, propagating panic and fuel exhaustion. -/
def PRes.bind {α β : Type} (r : PRes α) (f : α → PState → PRes β) : PRes β :=
  match r with
  | .ok a st => f a st
  | .goPanic m => .goPanic m
  | .fuelOut => .fuelOut

/-- The Go panic message raised by `x.(*ast.BlockStatement)` on a nil
interface value. -/
def nilBlockAssertionMsg : String :=
  "interface conversion: interface is nil, not *ast.BlockStatement"

/- The parser's mutually recursive routines.  Every routine takes a fuel
argument and every mutual call decrements it, making the recursion
structural; the Go registration maps (`parselets`, `prefixParsers`,
`infixParsers`, `precedences`) are modelled as dispatch on the current
token's type, enumerating exactly the kinds registered in `parser.New`. -/
mutual

/-- Go `(*Parser).parseStatement`: statement dispatch with the
expression-statement fallback. -/
def parseStatement : Nat → PState → PRes (Option Stmt)
  | 0, _ => .fuelOut
  | n + 1, st =>
    let t := (currentToken st).type
    if t = LET then letStatementParselet n st
    else if t = RETURN then returnStatementParselet n st
    else if t = LBRACE then
      (blockStatementParselet n st).bind fun b st2 => .ok (b.map Stmt.blockS) st2
    else expressionStatementParselet n st

/-- Go `letStatementParselet`. -/
def letStatementParselet : Nat → PState → PRes (Option Stmt)
  | 0, _ => .fuelOut
  | n + 1, st =>
    if (currentToken st).type ≠ LET then .ok none st
    else
      let tok := currentToken st
      let st := consumeToken LET st
      let name : Identifier := ⟨currentToken st, (currentToken st).literal⟩
      let st := consumeToken IDENT st
      let st := consumeToken ASSIGN st
      (parseExpression n LOWEST st).bind fun v st => .ok (some (.letS tok name v)) (consumeToken SEMICOLON st)

/-- Go `returnStatementParselet`. -/
def returnStatementParselet : Nat → PState → PRes (Option Stmt)
  | 0, _ => .fuelOut
  | n + 1, st =>
    if (currentToken st).type ≠ RETURN then .ok none st
    else
      let tok := currentToken st
      let st := consumeToken RETURN st
      (parseExpression n LOWEST st).bind fun v st => .ok (some (.returnS tok v)) (consumeToken SEMICOLON st)

/-- Go `expressionStatementParselet`: parse an expression, then consume a
semicolon only if one is present. -/
def expressionStatementParselet : Nat → PState → PRes (Option Stmt)
  | 0, _ => .fuelOut
  | n + 1, st =>
    let tok := currentToken st
    (parseExpression n LOWEST st).bind fun e st =>
      let st := if (currentToken st).type = SEMICOLON then consumeToken SEMICOLON st else st
      .ok (some (.exprS tok e)) st

/-- Go `blockStatementParselet`; the `none` result is the Go `nil` returned
when the current token is not `{`. -/
def blockStatementParselet : Nat → PState → PRes (Option Block)
  | 0, _ => .fuelOut
  | n + 1, st =>
    if (currentToken st).type ≠ LBRACE then .ok none st
    else
      let tok := currentToken st
      let st := consumeToken LBRACE st
      (blockLoop n [] st).bind fun stmts st =>
        .ok (some (.mk tok stmts)) (consumeToken RBRACE st)

/-- The statement loop inside `blockStatementParselet` (runs while the
current token is neither `EOF` nor `}`). -/
def blockLoop : Nat → List (Option Stmt) → PState → PRes (List (Option Stmt))
  | 0, _, _ => .fuelOut
  | n + 1, acc, st =>
    let t := (currentToken st).type
    if t = EOF ∨ t = RBRACE then .ok acc st
    else
      (parseStatement n st).bind fun s st2 => blockLoop n (acc ++ [s]) st2

/-- Go `(*Parser).parseExpression`: prefix dispatch (with the
missing-prefix-parser diagnostic) followed by the precedence loop. -/
def parseExpression : Nat → Nat → PState → PRes (Option Expr)
  | 0, _, _ => .fuelOut
  | n + 1, prec, st =>
    let t := (currentToken st).type
    if t = IDENT then
      let r := parseIdentifier st
      infLoop n prec (some (.identE r.1)) r.2
    else if t = INT then
      let r := parseIntegerLiteral st
      infLoop n prec r.1 r.2
    else if t = TRUE ∨ t = FALSE then
      let r := parseBooleanLiteral st
      infLoop n prec r.1 r.2
    else if t = BANG ∨ t = MINUS then
      (parsePreOperator n st).bind fun e st2 => infLoop n prec e st2
    else if t = LPAREN then
      (parseGroupedExpression n st).bind fun e st2 => infLoop n prec e st2
    else if t = IF then
      (parseIfExpression n st).bind fun e st2 => infLoop n prec e st2
    else if t = FUNCTION then
      (parseFunctionExpression n st).bind fun e st2 => infLoop n prec e st2
    else
      let st := addError ("Unable to consume prefix: " ++ fmtToken (currentToken st)) st
      .ok none (consumeNextToken st)

/-- The `for` loop of `parseExpression`: while the current token is not `;`
and binds strictly tighter than `prec`, hand the accumulated left
expression to the registered infix parser (all eight operators use
`parseInfixExpression`; a token without a registered infix parser stops the
loop). -/
def infLoop : Nat → Nat → Option Expr → PState → PRes (Option Expr)
  | 0, _, _, _ => .fuelOut
  | n + 1, prec, left, st =>
    if (currentToken st).type = SEMICOLON then .ok left st
    else if ¬ prec < getCurrentPrecedence st then .ok left st
    else
      let t := (currentToken st).type
      if t = PLUS ∨ t = MINUS ∨ t = ASTERISK ∨ t = SLASH ∨
          t = LTtk ∨ t = GTtk ∨ t = EQtk ∨ t = NOTEQ then
        (parseInfExpression n left st).bind fun e st2 => infLoop n prec e st2
      else .ok left st

/-- Go `(*Parser).parseInfixExpression` (named `parseInfExpression` here):
record the operator, advance, and recurse at the operator's own precedence
(left associativity). -/
def parseInfExpression : Nat → Option Expr → PState → PRes (Option Expr)
  | 0, _, _ => .fuelOut
  | n + 1, left, st =>
    let tok := currentToken st
    let precedence := getCurrentPrecedence st
    let st := consumeNextToken st
    (parseExpression n precedence st).bind fun r st2 =>
      .ok (some (.infE tok left tok.literal r)) st2

/-- Go `(*Parser).parsePrefixOperator` (named `parsePreOperator` here):
record the operator, advance, and recurse at the unary precedence level. -/
def parsePreOperator : Nat → PState → PRes (Option Expr)
  | 0, _ => .fuelOut
  | n + 1, st =>
    let tok := currentToken st
    let st := consumeNextToken st
    (parseExpression n PREC_UNARY st).bind fun r st2 =>
      .ok (some (.preE tok tok.literal r)) st2

/-- Go `(*Parser).parseGroupedExpression`. -/
def parseGroupedExpression : Nat → PState → PRes (Option Expr)
  | 0, _ => .fuelOut
  | n + 1, st =>
    let st := consumeToken LPAREN st
    (parseExpression n LOWEST st).bind fun e st2 =>
      .ok e (consumeToken RPAREN st2)

/-- Go `(*Parser).parseIfExpression`, including the Go type assertion
`blockStatementParselet(p).(*ast.BlockStatement)` that panics when the
parselet returned nil. -/
def parseIfExpression : Nat → PState → PRes (Option Expr)
  | 0, _ => .fuelOut
  | n + 1, st =>
    let tok := currentToken st
    let st := consumeToken IF st
    let st := consumeToken LPAREN st
    (parseExpression n LOWEST st).bind fun c st =>
      let st := consumeToken RPAREN st
      (blockStatementParselet n st).bind fun consq st =>
        match consq with
        | none => .goPanic nilBlockAssertionMsg
        | some consequence =>
          if (currentToken st).type ≠ ELSE then .ok (some (.ifE tok c consequence none)) st
          else
            let st := consumeToken ELSE st
            (blockStatementParselet n st).bind fun alt st =>
              match alt with
              | none => .goPanic nilBlockAssertionMsg
              | some alternative => .ok (some (.ifE tok c consequence (some alternative))) st

/-- Go `(*Parser).parseFunctionExpression`, including the body type
assertion that panics on a nil block. -/
def parseFunctionExpression : Nat → PState → PRes (Option Expr)
  | 0, _ => .fuelOut
  | n + 1, st =>
    let tok := currentToken st
    let st := consumeToken FUNCTION st
    let st := consumeToken LPAREN st
    (paramLoop n [] st).bind fun ps st =>
      let st := consumeToken RPAREN st
      (blockStatementParselet n st).bind fun b st =>
        match b with
        | none => .goPanic nilBlockAssertionMsg
        | some body => .ok (some (.funcLit tok ps body)) st

/-- The parameter loop of `parseFunctionExpression`: while the current
token is neither `EOF` nor `)`, take the current token as a parameter
identifier (whatever its kind) and skip a following comma if present. -/
def paramLoop : Nat → List Identifier → PState → PRes (List Identifier)
  | 0, _, _ => .fuelOut
  | n + 1, acc, st =>
    let t := (currentToken st).type
    if t = EOF ∨ t = RPAREN then .ok acc st
    else
      let r := parseIdentifier st
      let st := if (currentToken r.2).type = COMMA then consumeToken COMMA r.2 else r.2
      paramLoop n (acc ++ [r.1]) st

/-- The statement loop of Go `(*Parser).ParseProgram` (runs until the
current token is `EOF`, appending one parsed statement per iteration). -/
def programLoop : Nat → List (Option Stmt) → PState → PRes (List (Option Stmt))
  | 0, _, _ => .fuelOut
  | n + 1, acc, st =>
    if (currentToken st).type = EOF then .ok acc st
    else
      (parseStatement n st).bind fun s st2 => programLoop n (acc ++ [s]) st2

end

/-- Fuel that always suffices for a full `ParseProgram` run (proved by
`parser_fuel_adequate`). -/
def parserFuel (ts : List Token) : Nat :=
  10 * ts.length + 30

/-- Go `(*Parser).ParseProgram` over an already-lexed token stream (the Go
parser pulls tokens lazily, but it reads each token exactly once in order,
so the stream is presented as a list). -/
def ParseProgram (ts : List Token) : PRes (List (Option Stmt)) :=
  programLoop (parserFuel ts) [] { toks := ts, errors := [] }

/-- The full pipeline on a source string: `parser.New(lexer.New(input))`
followed by `ParseProgram`. -/
def parseSource (s : String) : PRes (List (Option Stmt)) :=
  ParseProgram (lexAll s.data)

/-- The statements of a successful parse. -/
def resultStmts : PRes (List (Option Stmt)) → List (Option Stmt)
  | .ok stmts _ => stmts
  | _ => []

/-- The diagnostics (`p.Errors()`) of a successful parse. -/
def resultErrors : PRes (List (Option Stmt)) → List String
  | .ok _ st => st.errors
  | _ => []

/-- `Program.String()` of the parse of a source string. -/
def sourceRender (s : String) : Option String :=
  match parseSource s with
  | .ok stmts _ => renderProgram stmts
  | _ => none

/-- `p.Errors()` after parsing a source string. -/
def sourceErrors (s : String) : List String :=
  resultErrors (parseSource s)

mutual

/-- Whether an expression contains a `CallExpression` node anywhere. -/
def exprHasCall : Expr → Bool
  | .identE _ => false
  | .intLit _ _ => false
  | .boolLit _ _ => false
  | .preE _ _ r => optExprHasCall r
  | .infE _ l _ r => optExprHasCall l || optExprHasCall r
  | .ifE _ c cons alt =>
    optExprHasCall c || blockHasCall cons ||
      (match alt with | none => false | some b => blockHasCall b)
  | .funcLit _ _ body => blockHasCall body
  | .callE _ _ _ => true

/-- `exprHasCall` through an optional child. -/
def optExprHasCall : Option Expr → Bool
  | none => false
  | some e => exprHasCall e

/-- Whether a statement contains a `CallExpression` node anywhere. -/
def stmtHasCall : Stmt → Bool
  | .letS _ _ v => optExprHasCall v
  | .returnS _ v => optExprHasCall v
  | .exprS _ e => optExprHasCall e
  | .blockS b => blockHasCall b

/-- Whether a block contains a `CallExpression` node anywhere. -/
def blockHasCall : Block → Bool
  | .mk _ stmts => stmtsHaveCall stmts

/-- Whether any statement of a list contains a `CallExpression` node. -/
def stmtsHaveCall : List (Option Stmt) → Bool
  | [] => false
  | none :: rest => stmtsHaveCall rest
  | some s :: rest => stmtHasCall s || stmtsHaveCall rest

end

/-- `exprHasCall` through a possibly absent statement. -/
def optStmtHasCall : Option Stmt → Bool
  | none => false
  | some s => stmtHasCall s

/-- `blockHasCall` through a possibly absent block. -/
def optBlockHasCall : Option Block → Bool
  | none => false
  | some b => blockHasCall b

/-- The first statement of a parse, when it is an expression statement
holding a function literal: its parameter list. -/
def firstFuncParams : PRes (List (Option Stmt)) → List Identifier
  | .ok (some (.exprS _ (some (.funcLit _ ps _))) :: _) _ => ps
  | _ => []

/-- The first statement of a parse, when it is an expression statement
holding a function literal: its body. -/
def firstFuncBody : PRes (List (Option Stmt)) → Option Block
  | .ok (some (.exprS _ (some (.funcLit _ _ b))) :: _) _ => some b
  | _ => none

/-- Well-formedness of a lexer state: exactly the relationship between
`position`, `nextPosition` and `ch` that `consumeNextChar` establishes and
maintains (every state reachable from `lexer.New` satisfies it). -/
def LexerWF (l : Lexer) : Prop :=
  l.position ≤ l.input.length ∧
  l.nextPosition = min (l.position + 1) l.input.length ∧
  l.ch = (if h : l.position < l.input.length then l.input.get ⟨l.position, h⟩ else NUL)

instance (l : Lexer) : Decidable (LexerWF l) := by
  unfold LexerWF; infer_instance

/-- The `","` token as the lexer produces it. -/
def commaToken : Token := { type := COMMA, literal := "," }

/-- The `")"` token as the lexer produces it. -/
def rparenToken : Token := { type := RPAREN, literal := ")" }

/-- A comma-separated parameter token sequence (one token per parameter,
separated by `","` tokens), as it appears between `(` and `)` of a
function literal. -/
def paramTokens : List Token → List Token
  | [] => []
  | [t] => [t]
  | t :: rest => t :: commaToken :: paramTokens rest

/-- The characters the lexer has not yet consumed. -/
def remaining (l : Lexer) : List Char := l.input.drop l.position

/-- The `"("` token as the lexer produces it. -/
def lparenToken : Token := { type := LPAREN, literal := "(" }

/-- The eight infix operator tokens as the lexer produces them. -/
def infixTokens : List Token :=
  [⟨PLUS, "+"⟩, ⟨MINUS, "-"⟩, ⟨ASTERISK, "*"⟩, ⟨SLASH, "/"⟩,
   ⟨LTtk, "<"⟩, ⟨GTtk, ">"⟩, ⟨EQtk, "=="⟩, ⟨NOTEQ, "!="⟩]

/- A total companion of the `String()` rendering on the call/if/fn-free
fragment (on that fragment `renderExpr` never panics, and a lemma links
the two). -/
mutual

/-- Total rendering of fragment expressions. -/
def crender : Expr → String
  | .identE i => i.value
  | .intLit t _ => t.literal
  | .boolLit t _ => t.literal
  | .preE _ op r => "(" ++ op ++ optCrender r ++ ")"
  | .infE _ l op r => "(" ++ optCrender l ++ " " ++ op ++ " " ++ optCrender r ++ ")"
  | .ifE _ _ _ _ => ""
  | .funcLit _ _ _ => ""
  | .callE _ _ _ => ""

/-- Total rendering through an optional child. -/
def optCrender : Option Expr → String
  | none => ""
  | some e => crender e

end

/- The token sequence the lexer produces from a fragment expression's
rendering. -/
mutual

/-- Tokens of a rendered fragment expression. -/
def exprTokens : Expr → List Token
  | .identE i => [i.token]
  | .intLit t _ => [t]
  | .boolLit t _ => [t]
  | .preE t _ r => lparenToken :: t :: (optTokens r ++ [rparenToken])
  | .infE t l _ r => lparenToken :: (optTokens l ++ t :: (optTokens r ++ [rparenToken]))
  | .ifE _ _ _ _ => []
  | .funcLit _ _ _ => []
  | .callE _ _ _ => []

/-- Tokens through an optional child. -/
def optTokens : Option Expr → List Token
  | none => []
  | some e => exprTokens e

end

/- Fuel needed by `parseExpression` to rebuild a fragment expression. -/
mutual

/-- Fuel bound for re-parsing a rendered fragment expression. -/
def cfuel : Expr → Nat
  | .preE _ _ r => optCfuel r + 6
  | .infE _ l _ r => optCfuel l + optCfuel r + 8
  | _ => 2

/-- Fuel bound through an optional child. -/
def optCfuel : Option Expr → Nat
  | none => 0
  | some e => cfuel e

end

/-- The render-closed expression fragment: exactly the call/if/fn-free
expression shapes the parser itself produces, with every child present and
every token carrying the lexeme the lexer delivers for it.  Rendering such
an expression re-lexes and re-parses to the same expression. -/
inductive ClosedExpr : Expr → Prop where
  | ident (name : String) (h1 : name.data ≠ [])
      (h2 : ∀ c ∈ name.data, isCharacter c = true)
      (h3 : GetTokenType name = IDENT) :
      ClosedExpr (.identE ⟨⟨IDENT, name⟩, name⟩)
  | int (lit : String) (v : Int) (h1 : lit.data ≠ [])
      (h2 : ∀ c ∈ lit.data, isDigit c = true)
      (h3 : goParseInt lit = some v) :
      ClosedExpr (.intLit ⟨INT, lit⟩ v)
  | btrue : ClosedExpr (.boolLit ⟨TRUE, "true"⟩ true)
  | bfalse : ClosedExpr (.boolLit ⟨FALSE, "false"⟩ false)
  | pre (t : Token) (r : Expr) (hop : t = ⟨BANG, "!"⟩ ∨ t = ⟨MINUS, "-"⟩)
      (hr : ClosedExpr r) : ClosedExpr (.preE t t.literal (some r))
  | inf (t : Token) (l r : Expr) (hop : t ∈ infixTokens)
      (hl : ClosedExpr l) (hr : ClosedExpr r) :
      ClosedExpr (.infE t (some l) t.literal (some r))

/-- A run of `NextToken` calls producing exactly the given tokens. -/
def LexPath : Lexer → List Token → Lexer → Prop
  | l, [], l' => l = l'
  | l, t :: ts, l' => ∃ l2, NextToken l = (t, l2) ∧ LexPath l2 ts l'

/- ------------------------------------------------------------------ -/
/- Supporting lemmas                                                   -/
/- ------------------------------------------------------------------ -/

/-- Skipping whitespace does nothing when the current character is the
end sentinel. -/
theorem consumeWhitespaces_at_nul (l : Lexer) (h : l.ch = NUL) :
    consumeWhitespaces l = l := by
  unfold consumeWhitespaces
  cases hn : l.input.length + 1 - l.position with
  | zero => rfl
  | succ n =>
    unfold consumeWhitespacesAux
    rw [h]
    simp

/-- `consumeNextToken` never touches the diagnostics list. -/
theorem consumeNextToken_errors (st : PState) :
    (consumeNextToken st).errors = st.errors := by
  unfold consumeNextToken
  split <;> rfl

/-- A matching `consumeToken` leaves the diagnostics unchanged. -/
theorem consumeToken_match_errors (t : TokType) (st : PState)
    (h : (currentToken st).type = t) :
    (consumeToken t st).errors = st.errors := by
  unfold consumeToken
  rw [if_neg (not_not_intro h)]
  exact consumeNextToken_errors st

/-- The head of a drop, as the dependent lookup the lexer caches. -/
theorem headD_drop (cs : List Char) (i : Nat) :
    (cs.drop i).headD NUL = if h : i < cs.length then cs.get ⟨i, h⟩ else NUL := by
  split_ifs with h
  · rw [List.headD_eq_head?, List.head?_drop, List.getElem?_eq_getElem h]
    rfl
  · rw [List.drop_eq_nil_of_le (by omega)]
    rfl

/-- Under well-formedness the cached character is the head of the
remaining input. -/
theorem LexerWF_ch (l : Lexer) (hwf : LexerWF l) :
    l.ch = (remaining l).headD NUL := by
  obtain ⟨h1, h2, h3⟩ := hwf
  rw [h3]
  unfold remaining
  rw [headD_drop]

/-- Under well-formedness the peek character is the head of the remaining
input's tail. -/
theorem peekNextChar_eq (l : Lexer) (hwf : LexerWF l) :
    peekNextChar l = (remaining l).tail.headD NUL := by
  obtain ⟨h1, h2, h3⟩ := hwf
  unfold peekNextChar remaining
  rw [List.tail_drop, ← headD_drop]
  by_cases h : l.position + 1 ≤ l.input.length
  · have : l.nextPosition = l.position + 1 := by omega
    rw [this]
  · have hnp : l.nextPosition = l.input.length := by omega
    rw [hnp, List.drop_length, List.drop_eq_nil_of_le (by omega)]

/-- A nonempty remainder means the cursor is strictly inside the input. -/
theorem remaining_ne_nil (l : Lexer) (h : remaining l ≠ []) :
    l.position < l.input.length := by
  by_contra hx
  exact h (List.drop_eq_nil_of_le (by omega))

/-- One well-formed `consumeNextChar` step inside the input. -/
theorem consumeNextChar_step (l : Lexer) (hwf : LexerWF l)
    (hlt : l.position < l.input.length) :
    LexerWF (consumeNextChar l) ∧
    (consumeNextChar l).position = l.position + 1 ∧
    (consumeNextChar l).input = l.input := by
  obtain ⟨h1, h2, h3⟩ := hwf
  have hnp : l.nextPosition = l.position + 1 := by omega
  refine ⟨⟨?_, ?_, ?_⟩, ?_, ?_⟩ <;> simp only [consumeNextChar, hnp] <;>
    first
      | rfl
      | omega
      | (rw [Nat.min_def]; split_ifs <;> omega)

/-- `consumeNextChar` drops one character from the remainder. -/
theorem remaining_consumeNextChar (l : Lexer) (hwf : LexerWF l)
    (hlt : l.position < l.input.length) :
    remaining (consumeNextChar l) = (remaining l).tail := by
  obtain ⟨hstep, hpos, hinp⟩ := consumeNextChar_step l hwf hlt
  unfold remaining
  rw [hpos, hinp, List.tail_drop]

/-- Whitespace characters are never the 0 sentinel. -/
theorem isWhitespace_ne_nul (c : Char) (h : isWhitespace c = true) : c ≠ NUL := by
  intro hc
  subst hc
  exact absurd h (by decide)

/-- Skipping a run of whitespace characters: the loop body fires exactly
once per whitespace character and stops at the first non-whitespace. -/
theorem consumeWhitespacesAux_spec : ∀ (sps : List Char) (fuel : Nat) (l : Lexer)
    (rest : List Char), LexerWF l → remaining l = sps ++ rest →
    (∀ c ∈ sps, isWhitespace c = true) →
    isWhitespace (rest.headD NUL) = false →
    sps.length < fuel →
    LexerWF (consumeWhitespacesAux fuel l) ∧
      remaining (consumeWhitespacesAux fuel l) = rest ∧
      (consumeWhitespacesAux fuel l).input = l.input := by
  intro sps
  induction sps with
  | nil =>
    intro fuel l rest hwf hrem hws hstop hfuel
    obtain ⟨f, rfl⟩ : ∃ f, fuel = f + 1 := ⟨fuel - 1, by omega⟩
    have hch : l.ch = rest.headD NUL := by
      rw [LexerWF_ch l hwf, hrem]
      rfl
    have hguard : (l.ch != NUL && isWhitespace l.ch) = false := by
      rw [hch, hstop, Bool.and_false]
    unfold consumeWhitespacesAux
    rw [hguard]
    simp only [Bool.false_eq_true, if_false]
    exact ⟨hwf, by rw [hrem]; exact List.nil_append rest, by trivial⟩
  | cons c sps ih =>
    intro fuel l rest hwf hrem hws hstop hfuel
    obtain ⟨f, rfl⟩ : ∃ f, fuel = f + 1 := ⟨fuel - 1, by omega⟩
    have hcw : isWhitespace c = true := hws c (by simp)
    have hch : l.ch = c := by
      rw [LexerWF_ch l hwf, hrem]
      rfl
    have hguard : (l.ch != NUL && isWhitespace l.ch) = true := by
      rw [hch, hcw, Bool.and_true, bne_iff_ne]
      exact isWhitespace_ne_nul c hcw
    have hlt : l.position < l.input.length :=
      remaining_ne_nil l (by rw [hrem]; simp)
    obtain ⟨hwf2, hpos2, hinp2⟩ := consumeNextChar_step l hwf hlt
    have hrem2 : remaining (consumeNextChar l) = sps ++ rest := by
      rw [remaining_consumeNextChar l hwf hlt, hrem]
      rfl
    unfold consumeWhitespacesAux
    rw [hguard]
    rw [if_pos rfl]
    obtain ⟨r1, r2, r3⟩ := ih f (consumeNextChar l) rest hwf2 hrem2
      (fun x hx => hws x (by simp [hx])) hstop (by simp at hfuel; omega)
    exact ⟨r1, r2, by rw [r3, hinp2]⟩

/-- `consumeWhitespaces` skips exactly the leading whitespace. -/
theorem consumeWhitespaces_spec (l : Lexer) (sps rest : List Char) (hwf : LexerWF l)
    (hrem : remaining l = sps ++ rest)
    (hws : ∀ c ∈ sps, isWhitespace c = true)
    (hstop : isWhitespace (rest.headD NUL) = false) :
    LexerWF (consumeWhitespaces l) ∧ remaining (consumeWhitespaces l) = rest ∧
      (consumeWhitespaces l).input = l.input := by
  have hlen : (remaining l).length = l.input.length - l.position := by
    unfold remaining
    rw [List.length_drop]
  have hposle : l.position ≤ l.input.length := hwf.1
  exact consumeWhitespacesAux_spec sps (l.input.length + 1 - l.position) l rest hwf hrem
    hws hstop (by
      have := congrArg List.length hrem
      rw [hlen] at this
      simp at this
      omega)

/-- A character run reader: one step per matching character, stopping at
the first non-matching one. -/
theorem readRunAux_spec (pred : Char → Bool) (hnul : pred NUL = false) :
    ∀ (xs : List Char) (fuel : Nat) (l : Lexer) (rest : List Char),
    LexerWF l → remaining l = xs ++ rest →
    (∀ c ∈ xs, pred c = true) →
    pred (rest.headD NUL) = false →
    xs.length < fuel →
    LexerWF (readRunAux pred fuel l) ∧
      remaining (readRunAux pred fuel l) = rest ∧
      (readRunAux pred fuel l).input = l.input ∧
      (readRunAux pred fuel l).position = l.position + xs.length := by
  intro xs
  induction xs with
  | nil =>
    intro fuel l rest hwf hrem hall hstop hfuel
    obtain ⟨f, rfl⟩ : ∃ f, fuel = f + 1 := ⟨fuel - 1, by omega⟩
    have hch : l.ch = rest.headD NUL := by
      rw [LexerWF_ch l hwf, hrem]
      rfl
    have hguard : pred l.ch = false := by rw [hch, hstop]
    unfold readRunAux
    rw [hguard]
    simp only [Bool.false_eq_true, if_false]
    exact ⟨hwf, by rw [hrem]; exact List.nil_append rest, by trivial, by simp⟩
  | cons c xs ih =>
    intro fuel l rest hwf hrem hall hstop hfuel
    obtain ⟨f, rfl⟩ : ∃ f, fuel = f + 1 := ⟨fuel - 1, by omega⟩
    have hch : l.ch = c := by
      rw [LexerWF_ch l hwf, hrem]
      rfl
    have hguard : pred l.ch = true := by
      rw [hch]
      exact hall c (by simp)
    have hlt : l.position < l.input.length :=
      remaining_ne_nil l (by rw [hrem]; simp)
    obtain ⟨hwf2, hpos2, hinp2⟩ := consumeNextChar_step l hwf hlt
    have hrem2 : remaining (consumeNextChar l) = xs ++ rest := by
      rw [remaining_consumeNextChar l hwf hlt, hrem]
      rfl
    unfold readRunAux
    rw [hguard]
    rw [if_pos rfl]
    obtain ⟨r1, r2, r3, r4⟩ := ih f (consumeNextChar l) rest hwf2 hrem2
      (fun x hx => hall x (by simp [hx])) hstop (by simp at hfuel; omega)
    refine ⟨r1, r2, by rw [r3, hinp2], ?_⟩
    rw [r4, hpos2]
    simp
    omega

/-- `readRun` consumes exactly the maximal matching run. -/
theorem readRun_spec (pred : Char → Bool) (hnul : pred NUL = false)
    (xs : List Char) (l : Lexer) (rest : List Char)
    (hwf : LexerWF l) (hrem : remaining l = xs ++ rest)
    (hall : ∀ c ∈ xs, pred c = true)
    (hstop : pred (rest.headD NUL) = false) :
    LexerWF (readRun pred l) ∧ remaining (readRun pred l) = rest ∧
      (readRun pred l).input = l.input ∧
      (readRun pred l).position = l.position + xs.length := by
  have hlen : (remaining l).length = l.input.length - l.position := by
    unfold remaining
    rw [List.length_drop]
  have hposle : l.position ≤ l.input.length := hwf.1
  exact readRunAux_spec pred hnul xs (l.input.length + 1 - l.position) l rest hwf hrem
    hall hstop (by
      have := congrArg List.length hrem
      rw [hlen] at this
      simp at this
      omega)

/-- Two characters cannot agree on a Boolean character class. -/
theorem pred_ne (p : Char → Bool) (c d : Char) (h : p c = true) (hd : p d = false) :
    c ≠ d := by
  intro hx
  subst hx
  rw [h] at hd
  exact Bool.noConfusion hd

/-- The whitespace characters, enumerated. -/
theorem isWhitespace_cases (c : Char) (h : isWhitespace c = true) :
    c = ' ' ∨ c = '\t' ∨ c = '\r' ∨ c = '\n' := by
  simp only [isWhitespace, Bool.or_eq_true, beq_iff_eq] at h
  tauto

/-- Letters are not whitespace. -/
theorem isCharacter_not_ws (c : Char) (h : isCharacter c = true) :
    isWhitespace c = false := by
  cases hb : isWhitespace c
  · rfl
  · rcases isWhitespace_cases c hb with rfl | rfl | rfl | rfl <;>
      exact absurd h (by decide)

/-- Digits are not whitespace. -/
theorem isDigit_not_ws (c : Char) (h : isDigit c = true) :
    isWhitespace c = false := by
  cases hb : isWhitespace c
  · rfl
  · rcases isWhitespace_cases c hb with rfl | rfl | rfl | rfl <;>
      exact absurd h (by decide)

/-- Letters are not digits. -/
theorem isCharacter_not_digit (c : Char) (h : isCharacter c = true) :
    isDigit c = false := by
  cases hb : isDigit c
  · rfl
  · exfalso
    simp only [isDigit, Bool.and_eq_true, decide_eq_true_eq] at hb
    simp only [isCharacter, Bool.or_eq_true, Bool.and_eq_true, decide_eq_true_eq] at h
    rcases h with ⟨h1, _⟩ | ⟨h1, _⟩
    · exact absurd (le_trans h1 hb.2) (by decide)
    · exact absurd (le_trans h1 hb.2) (by decide)

/-- No two-character operator token starts with a character other than
`=` or `!`. -/
theorem getTwo_illegal (c x : Char) (h1 : c ≠ '=') (h2 : c ≠ '!') :
    GetTwoCharToken (String.mk [c, x]) = ILLEGAL := by
  have hA : ¬ (String.mk [c, x] = "==") := by
    intro hx
    rw [show ("==" : String) = String.mk ['=', '='] from rfl] at hx
    injection hx with hdata
    injection hdata with hc _
    exact h1 hc
  have hB : ¬ (String.mk [c, x] = "!=") := by
    intro hx
    rw [show ("!=" : String) = String.mk ['!', '='] from rfl] at hx
    injection hx with hdata
    injection hdata with hc _
    exact h2 hc
  unfold GetTwoCharToken
  rw [if_neg hA, if_neg hB]

/-- `!` only forms a two-character operator with a following `=`. -/
theorem getTwo_bang (x : Char) (hx : x ≠ '=') :
    GetTwoCharToken (String.mk ['!', x]) = ILLEGAL := by
  have hA : ¬ (String.mk ['!', x] = "==") := by
    intro h
    rw [show ("==" : String) = String.mk ['=', '='] from rfl] at h
    injection h with hdata
    injection hdata with hc _
    exact absurd hc (by decide)
  have hB : ¬ (String.mk ['!', x] = "!=") := by
    intro h
    rw [show ("!=" : String) = String.mk ['!', '='] from rfl] at h
    injection h with hdata
    injection hdata with _ htail
    injection htail with hx2 _
    exact hx hx2
  unfold GetTwoCharToken
  rw [if_neg hA, if_neg hB]

/-- Digits have no single-character token. -/
theorem isDigit_getSingle (c : Char) (h : isDigit c = true) :
    GetSingleCharToken c = ILLEGAL := by
  unfold GetSingleCharToken
  rw [if_neg (pred_ne isDigit c ',' h (by decide)),
    if_neg (pred_ne isDigit c ';' h (by decide)),
    if_neg (pred_ne isDigit c '(' h (by decide)),
    if_neg (pred_ne isDigit c ')' h (by decide)),
    if_neg (pred_ne isDigit c '\x7b' h (by decide)),
    if_neg (pred_ne isDigit c '\x7d' h (by decide)),
    if_neg (pred_ne isDigit c '=' h (by decide)),
    if_neg (pred_ne isDigit c '+' h (by decide)),
    if_neg (pred_ne isDigit c '-' h (by decide)),
    if_neg (pred_ne isDigit c '*' h (by decide)),
    if_neg (pred_ne isDigit c '/' h (by decide)),
    if_neg (pred_ne isDigit c '!' h (by decide)),
    if_neg (pred_ne isDigit c '<' h (by decide)),
    if_neg (pred_ne isDigit c '>' h (by decide))]

/-- Letters have no single-character token. -/
theorem isCharacter_getSingle (c : Char) (h : isCharacter c = true) :
    GetSingleCharToken c = ILLEGAL := by
  unfold GetSingleCharToken
  rw [if_neg (pred_ne isCharacter c ',' h (by decide)),
    if_neg (pred_ne isCharacter c ';' h (by decide)),
    if_neg (pred_ne isCharacter c '(' h (by decide)),
    if_neg (pred_ne isCharacter c ')' h (by decide)),
    if_neg (pred_ne isCharacter c '\x7b' h (by decide)),
    if_neg (pred_ne isCharacter c '\x7d' h (by decide)),
    if_neg (pred_ne isCharacter c '=' h (by decide)),
    if_neg (pred_ne isCharacter c '+' h (by decide)),
    if_neg (pred_ne isCharacter c '-' h (by decide)),
    if_neg (pred_ne isCharacter c '*' h (by decide)),
    if_neg (pred_ne isCharacter c '/' h (by decide)),
    if_neg (pred_ne isCharacter c '!' h (by decide)),
    if_neg (pred_ne isCharacter c '<' h (by decide)),
    if_neg (pred_ne isCharacter c '>' h (by decide))]

/-- `runLexlets` at a single-character token. -/
theorem runLexlets_single (l : Lexer) (c : Char) (rest : List Char)
    (hwf : LexerWF l) (hrem : remaining l = c :: rest) (hnnul : c ≠ NUL)
    (htwo : GetTwoCharToken (String.mk [c, rest.headD NUL]) = ILLEGAL)
    (hsingle : GetSingleCharToken c ≠ ILLEGAL) :
    runLexlets l = ({ type := GetSingleCharToken c, literal := String.mk [c] },
      consumeNextChar l) ∧
    LexerWF (consumeNextChar l) ∧ remaining (consumeNextChar l) = rest ∧
    (consumeNextChar l).input = l.input := by
  have hch : l.ch = c := by
    rw [LexerWF_ch l hwf, hrem]
    rfl
  have hpeek : peekNextChar l = rest.headD NUL := by
    rw [peekNextChar_eq l hwf, hrem]
    rfl
  have hlt : l.position < l.input.length := remaining_ne_nil l (by rw [hrem]; simp)
  obtain ⟨hwf2, hpos2, hinp2⟩ := consumeNextChar_step l hwf hlt
  have hrem2 : remaining (consumeNextChar l) = rest := by
    rw [remaining_consumeNextChar l hwf hlt, hrem]
    rfl
  refine ⟨?_, hwf2, hrem2, hinp2⟩
  have he : eofLexlet l = none := by
    unfold eofLexlet
    rw [if_pos (by rw [hch]; exact hnnul)]
  have ht : twoCharLexlet l = none := by
    unfold twoCharLexlet
    simp only [hch, hpeek]
    rw [htwo]
    simp
  have hs : singleCharLexlet l =
      some ({ type := GetSingleCharToken c, literal := String.mk [c] },
        consumeNextChar l) := by
    unfold singleCharLexlet
    simp only [hch]
    rw [if_neg hsingle]
  unfold runLexlets
  rw [he, ht, hs]

/-- `runLexlets` at a two-character operator token. -/
theorem runLexlets_two (l : Lexer) (c1 c2 : Char) (rest : List Char)
    (hwf : LexerWF l) (hrem : remaining l = c1 :: c2 :: rest) (hnnul : c1 ≠ NUL)
    (htwo : GetTwoCharToken (String.mk [c1, c2]) ≠ ILLEGAL) :
    runLexlets l =
      ({ type := GetTwoCharToken (String.mk [c1, c2]),
         literal := String.mk [c1, c2] }, consumeNextChar (consumeNextChar l)) ∧
    LexerWF (consumeNextChar (consumeNextChar l)) ∧
    remaining (consumeNextChar (consumeNextChar l)) = rest ∧
    (consumeNextChar (consumeNextChar l)).input = l.input := by
  have hch : l.ch = c1 := by
    rw [LexerWF_ch l hwf, hrem]
    rfl
  have hpeek : peekNextChar l = c2 := by
    rw [peekNextChar_eq l hwf, hrem]
    rfl
  have hlt : l.position < l.input.length := remaining_ne_nil l (by rw [hrem]; simp)
  obtain ⟨hwf2, hpos2, hinp2⟩ := consumeNextChar_step l hwf hlt
  have hrem2 : remaining (consumeNextChar l) = c2 :: rest := by
    rw [remaining_consumeNextChar l hwf hlt, hrem]
    rfl
  have hlt2 : (consumeNextChar l).position < (consumeNextChar l).input.length :=
    remaining_ne_nil _ (by rw [hrem2]; simp)
  obtain ⟨hwf3, hpos3, hinp3⟩ := consumeNextChar_step _ hwf2 hlt2
  have hrem3 : remaining (consumeNextChar (consumeNextChar l)) = rest := by
    rw [remaining_consumeNextChar _ hwf2 hlt2, hrem2]
    rfl
  refine ⟨?_, hwf3, hrem3, by rw [hinp3, hinp2]⟩
  have he : eofLexlet l = none := by
    unfold eofLexlet
    rw [if_pos (by rw [hch]; exact hnnul)]
  have ht : twoCharLexlet l =
      some ({ type := GetTwoCharToken (String.mk [c1, c2]),
              literal := String.mk [c1, c2] }, consumeNextChar (consumeNextChar l)) := by
    unfold twoCharLexlet
    simp only [hch, hpeek]
    rw [if_neg htwo]
  unfold runLexlets
  rw [he, ht]

/-- `runLexlets` at a maximal digit run. -/
theorem runLexlets_digits (l : Lexer) (d : Char) (ds rest : List Char)
    (hwf : LexerWF l) (hrem : remaining l = (d :: ds) ++ rest)
    (hall : ∀ x ∈ d :: ds, isDigit x = true)
    (hstop : isDigit (rest.headD NUL) = false) :
    runLexlets l = ({ type := INT, literal := String.mk (d :: ds) }, readRun isDigit l) ∧
    LexerWF (readRun isDigit l) ∧ remaining (readRun isDigit l) = rest ∧
    (readRun isDigit l).input = l.input := by
  have hd : isDigit d = true := hall d (by simp)
  have hch : l.ch = d := by
    rw [LexerWF_ch l hwf, hrem]
    rfl
  obtain ⟨hwf2, hrem2, hinp2, hpos2⟩ :=
    readRun_spec isDigit (by decide) (d :: ds) l rest hwf hrem hall hstop
  refine ⟨?_, hwf2, hrem2, hinp2⟩
  have he : eofLexlet l = none := by
    unfold eofLexlet
    rw [if_pos (by rw [hch]; exact pred_ne isDigit d NUL hd (by decide))]
  have ht : twoCharLexlet l = none := by
    unfold twoCharLexlet
    simp [hch, getTwo_illegal d _ (pred_ne isDigit d '=' hd (by decide))
      (pred_ne isDigit d '!' hd (by decide))]
  have hs : singleCharLexlet l = none := by
    unfold singleCharLexlet
    simp [hch, isDigit_getSingle d hd]
  have hguard : (l.ch == NUL || !isDigit l.ch) = false := by
    have hne : d ≠ NUL := pred_ne isDigit d NUL hd (by decide)
    rw [hch, hd]
    simp [hne]
  have hlit : literalsLexlet l =
      some ({ type := INT, literal := String.mk (d :: ds) }, readRun isDigit l) := by
    unfold literalsLexlet
    rw [hguard]
    simp only [Bool.false_eq_true, if_false]
    have hdrop : l.input.drop l.position = (d :: ds) ++ rest := hrem
    rw [hpos2]
    simp only [Nat.add_sub_cancel_left]
    rw [hdrop, List.take_left]
  unfold runLexlets
  rw [he, ht, hs, hlit]

/-- `runLexlets` at a maximal letter run. -/
theorem runLexlets_letters (l : Lexer) (d : Char) (ds rest : List Char)
    (hwf : LexerWF l) (hrem : remaining l = (d :: ds) ++ rest)
    (hall : ∀ x ∈ d :: ds, isCharacter x = true)
    (hstop : isCharacter (rest.headD NUL) = false) :
    runLexlets l =
      ({ type := GetTokenType (String.mk (d :: ds)),
         literal := String.mk (d :: ds) }, readRun isCharacter l) ∧
    LexerWF (readRun isCharacter l) ∧ remaining (readRun isCharacter l) = rest ∧
    (readRun isCharacter l).input = l.input := by
  have hd : isCharacter d = true := hall d (by simp)
  have hch : l.ch = d := by
    rw [LexerWF_ch l hwf, hrem]
    rfl
  obtain ⟨hwf2, hrem2, hinp2, hpos2⟩ :=
    readRun_spec isCharacter (by decide) (d :: ds) l rest hwf hrem hall hstop
  refine ⟨?_, hwf2, hrem2, hinp2⟩
  have he : eofLexlet l = none := by
    unfold eofLexlet
    rw [if_pos (by rw [hch]; exact pred_ne isCharacter d NUL hd (by decide))]
  have ht : twoCharLexlet l = none := by
    unfold twoCharLexlet
    simp [hch, getTwo_illegal d _ (pred_ne isCharacter d '=' hd (by decide))
      (pred_ne isCharacter d '!' hd (by decide))]
  have hs : singleCharLexlet l = none := by
    unfold singleCharLexlet
    simp [hch, isCharacter_getSingle d hd]
  have hguardL : (l.ch == NUL || !isDigit l.ch) = true := by
    rw [hch, isCharacter_not_digit d hd]
    simp
  have hlitnone : literalsLexlet l = none := by
    unfold literalsLexlet
    rw [hguardL]
    simp
  have hguardC : (l.ch == NUL || !isCharacter l.ch) = false := by
    have hne : d ≠ NUL := pred_ne isCharacter d NUL hd (by decide)
    rw [hch, hd]
    simp [hne]
  have hident : identifiersAndKeywordsLexlet l =
      some ({ type := GetTokenType (String.mk (d :: ds)),
              literal := String.mk (d :: ds) }, readRun isCharacter l) := by
    unfold identifiersAndKeywordsLexlet
    rw [hguardC]
    simp only [Bool.false_eq_true, if_false]
    have hdrop : l.input.drop l.position = (d :: ds) ++ rest := hrem
    rw [hpos2]
    simp only [Nat.add_sub_cancel_left]
    rw [hdrop, List.take_left]
  unfold runLexlets
  rw [he, ht, hs, hlitnone, hident]

/-- Rebuilding a string from its own character list. -/
theorem mk_data (s : String) : String.mk s.data = s := by
  cases s
  rfl

/-- `String.append` concatenates the character lists. -/
theorem data_append (a b : String) : (a ++ b).data = a.data ++ b.data := rfl

/-- Unfolding `LexPath` at the empty token list. -/
theorem LexPath_nil (l l2 : Lexer) : LexPath l [] l2 ↔ l = l2 := Iff.rfl

/-- Unfolding `LexPath` at a token cons. -/
theorem LexPath_cons (l l2 : Lexer) (t : Token) (ts : List Token) :
    LexPath l (t :: ts) l2 ↔ ∃ lm, NextToken l = (t, lm) ∧ LexPath lm ts l2 := Iff.rfl

/-- `LexPath` runs concatenate. -/
theorem LexPath_append (ts1 : List Token) : ∀ (ts2 : List Token) (l l2 l3 : Lexer),
    LexPath l ts1 l2 → LexPath l2 ts2 l3 → LexPath l (ts1 ++ ts2) l3 := by
  induction ts1 with
  | nil =>
    intro ts2 l l2 l3 h1 h2
    have he : l = l2 := h1
    subst he
    exact h2
  | cons t ts ih =>
    intro ts2 l l2 l3 h1 h2
    obtain ⟨lm, hnt, hrest⟩ := (LexPath_cons l l2 t ts).mp h1
    exact (LexPath_cons l l3 t (ts ++ ts2)).mpr ⟨lm, hnt, ih ts2 lm l2 l3 hrest h2⟩

/-- `NextToken` over leading whitespace followed by a maximal letter run. -/
theorem nextToken_letters (l : Lexer) (sps : List Char) (d : Char) (ds rest : List Char)
    (hwf : LexerWF l) (hrem : remaining l = sps ++ ((d :: ds) ++ rest))
    (hsps : ∀ c ∈ sps, isWhitespace c = true)
    (hall : ∀ x ∈ d :: ds, isCharacter x = true)
    (hstop : isCharacter (rest.headD NUL) = false) :
    ∃ l2, NextToken l = ({ type := GetTokenType (String.mk (d :: ds)),
                           literal := String.mk (d :: ds) }, l2) ∧
      LexerWF l2 ∧ remaining l2 = rest ∧ l2.input = l.input := by
  have hws : isWhitespace (((d :: ds) ++ rest).headD NUL) = false := by
    simpa using isCharacter_not_ws d (hall d (by simp))
  obtain ⟨hwf1, hrem1, hinp1⟩ := consumeWhitespaces_spec l sps _ hwf hrem hsps hws
  obtain ⟨hrun, hwf2, hrem2, hinp2⟩ :=
    runLexlets_letters (consumeWhitespaces l) d ds rest hwf1 hrem1 hall hstop
  exact ⟨_, hrun, hwf2, hrem2, by rw [hinp2, hinp1]⟩

/-- `NextToken` over leading whitespace followed by a maximal digit run. -/
theorem nextToken_digits (l : Lexer) (sps : List Char) (d : Char) (ds rest : List Char)
    (hwf : LexerWF l) (hrem : remaining l = sps ++ ((d :: ds) ++ rest))
    (hsps : ∀ c ∈ sps, isWhitespace c = true)
    (hall : ∀ x ∈ d :: ds, isDigit x = true)
    (hstop : isDigit (rest.headD NUL) = false) :
    ∃ l2, NextToken l = ({ type := INT, literal := String.mk (d :: ds) }, l2) ∧
      LexerWF l2 ∧ remaining l2 = rest ∧ l2.input = l.input := by
  have hws : isWhitespace (((d :: ds) ++ rest).headD NUL) = false := by
    simpa using isDigit_not_ws d (hall d (by simp))
  obtain ⟨hwf1, hrem1, hinp1⟩ := consumeWhitespaces_spec l sps _ hwf hrem hsps hws
  obtain ⟨hrun, hwf2, hrem2, hinp2⟩ :=
    runLexlets_digits (consumeWhitespaces l) d ds rest hwf1 hrem1 hall hstop
  exact ⟨_, hrun, hwf2, hrem2, by rw [hinp2, hinp1]⟩

/-- `NextToken` over leading whitespace followed by a single-character token. -/
theorem nextToken_single (l : Lexer) (sps : List Char) (c : Char) (rest : List Char)
    (hwf : LexerWF l) (hrem : remaining l = sps ++ (c :: rest))
    (hsps : ∀ x ∈ sps, isWhitespace x = true)
    (hcw : isWhitespace c = false) (hnnul : c ≠ NUL)
    (htwo : GetTwoCharToken (String.mk [c, rest.headD NUL]) = ILLEGAL)
    (hsingle : GetSingleCharToken c ≠ ILLEGAL) :
    ∃ l2, NextToken l = ({ type := GetSingleCharToken c, literal := String.mk [c] }, l2) ∧
      LexerWF l2 ∧ remaining l2 = rest ∧ l2.input = l.input := by
  have hws : isWhitespace ((c :: rest).headD NUL) = false := by simpa using hcw
  obtain ⟨hwf1, hrem1, hinp1⟩ := consumeWhitespaces_spec l sps _ hwf hrem hsps hws
  obtain ⟨hrun, hwf2, hrem2, hinp2⟩ :=
    runLexlets_single (consumeWhitespaces l) c rest hwf1 hrem1 hnnul htwo hsingle
  exact ⟨_, hrun, hwf2, hrem2, by rw [hinp2, hinp1]⟩

/-- `NextToken` over leading whitespace followed by a two-character operator. -/
theorem nextToken_two (l : Lexer) (sps : List Char) (c1 c2 : Char) (rest : List Char)
    (hwf : LexerWF l) (hrem : remaining l = sps ++ (c1 :: c2 :: rest))
    (hsps : ∀ x ∈ sps, isWhitespace x = true)
    (hcw : isWhitespace c1 = false) (hnnul : c1 ≠ NUL)
    (htwo : GetTwoCharToken (String.mk [c1, c2]) ≠ ILLEGAL) :
    ∃ l2, NextToken l = ({ type := GetTwoCharToken (String.mk [c1, c2]),
                           literal := String.mk [c1, c2] }, l2) ∧
      LexerWF l2 ∧ remaining l2 = rest ∧ l2.input = l.input := by
  have hws : isWhitespace ((c1 :: c2 :: rest).headD NUL) = false := by simpa using hcw
  obtain ⟨hwf1, hrem1, hinp1⟩ := consumeWhitespaces_spec l sps _ hwf hrem hsps hws
  obtain ⟨hrun, hwf2, hrem2, hinp2⟩ :=
    runLexlets_two (consumeWhitespaces l) c1 c2 rest hwf1 hrem1 hnnul htwo
  exact ⟨_, hrun, hwf2, hrem2, by rw [hinp2, hinp1]⟩

/-- The characters of a rendered prefix expression. -/
theorem crender_pre_data (t : Token) (op : String) (r : Option Expr) :
    (crender (.preE t op r)).data = '(' :: (op.data ++ ((optCrender r).data ++ [')'])) := by
  simp only [crender, data_append, List.append_assoc]
  rfl

/-- The characters of a rendered infix expression. -/
theorem crender_inf_data (t : Token) (el : Option Expr) (op : String) (er : Option Expr) :
    (crender (.infE t el op er)).data =
      '(' :: ((optCrender el).data ++ ' ' ::
        (op.data ++ ' ' :: ((optCrender er).data ++ [')']))) := by
  simp only [crender, data_append, List.append_assoc]
  rfl

/-- Every closed fragment expression renders to a nonempty string whose
first character is neither whitespace nor an `=`. -/
theorem crender_head (E : Expr) (hE : ClosedExpr E) :
    ∃ c cs, (crender E).data = c :: cs ∧ isWhitespace c = false ∧ c ≠ '=' := by
  cases hE with
  | ident name h1 h2 h3 =>
    obtain ⟨c, cs, hdata⟩ : ∃ c cs, name.data = c :: cs := by
      cases hd : name.data with
      | nil => exact absurd hd h1
      | cons c cs => exact ⟨c, cs, rfl⟩
    have hc : isCharacter c = true := h2 c (by rw [hdata]; simp)
    exact ⟨c, cs, hdata, isCharacter_not_ws c hc, pred_ne isCharacter c '=' hc (by decide)⟩
  | int lit v h1 h2 h3 =>
    obtain ⟨c, cs, hdata⟩ : ∃ c cs, lit.data = c :: cs := by
      cases hd : lit.data with
      | nil => exact absurd hd h1
      | cons c cs => exact ⟨c, cs, rfl⟩
    have hc : isDigit c = true := h2 c (by rw [hdata]; simp)
    exact ⟨c, cs, hdata, isDigit_not_ws c hc, pred_ne isDigit c '=' hc (by decide)⟩
  | btrue => exact ⟨'t', ['r', 'u', 'e'], rfl, by decide, by decide⟩
  | bfalse => exact ⟨'f', ['a', 'l', 's', 'e'], rfl, by decide, by decide⟩
  | pre t r hop hr =>
    exact ⟨'(', _, crender_pre_data t t.literal (some r), by decide, by decide⟩
  | inf t el er hop hl hr =>
    exact ⟨'(', _, crender_inf_data t (some el) t.literal (some er), by decide, by decide⟩

/-- After the infix operator token: the second operand, then the closing
parenthesis. -/
theorem lexSeq_inf_finish (t : Token) (eR : Expr) (rest : List Char) (l3 : Lexer)
    (hIH : ∀ (sps : List Char) (l : Lexer) (rest : List Char), LexerWF l →
      remaining l = sps ++ ((crender eR).data ++ rest) →
      (∀ c ∈ sps, isWhitespace c = true) →
      isCharacter (rest.headD NUL) = false → isDigit (rest.headD NUL) = false →
      ∃ l2, LexPath l (exprTokens eR) l2 ∧ LexerWF l2 ∧
        remaining l2 = rest ∧ l2.input = l.input)
    (hOp : ∃ l4, NextToken l3 = (t, l4) ∧ LexerWF l4 ∧
      remaining l4 = ' ' :: ((crender eR).data ++ (')' :: rest)) ∧ l4.input = l3.input) :
    ∃ l6, LexPath l3 (t :: (exprTokens eR ++ [rparenToken])) l6 ∧ LexerWF l6 ∧
      remaining l6 = rest ∧ l6.input = l3.input := by
  obtain ⟨l4, hnt, hwf4, hrem4, hinp4⟩ := hOp
  obtain ⟨l5, hpathR, hwf5, hrem5, hinp5⟩ :=
    hIH [' '] l4 (')' :: rest) hwf4 hrem4 (by decide) (by rw [List.headD_cons]; decide)
      (by rw [List.headD_cons]; decide)
  obtain ⟨l6, hnt6, hwf6, hrem6, hinp6⟩ :=
    nextToken_single l5 [] ')' rest hwf5 hrem5 (by simp) (by decide) (by decide)
      (getTwo_illegal ')' _ (by decide) (by decide)) (by decide)
  have hrp : ({ type := GetSingleCharToken ')', literal := String.mk [')'] } : Token) =
      rparenToken := by decide
  rw [hrp] at hnt6
  refine ⟨l6, ?_, hwf6, hrem6, by rw [hinp6, hinp5, hinp4]⟩
  refine (LexPath_cons _ _ _ _).mpr ⟨l4, hnt, ?_⟩
  exact LexPath_append (exprTokens eR) [rparenToken] l4 l5 l6 hpathR
    ((LexPath_cons _ _ _ _).mpr ⟨l6, hnt6, (LexPath_nil l6 l6).mpr rfl⟩)

/-- Lexing the rendering of a closed fragment expression yields exactly its
token sequence, from any well-formed lexer state, through optional leading
whitespace, provided the character that follows extends no letter or digit
run. -/
theorem lexSeq (E : Expr) (hE : ClosedExpr E) :
    ∀ (sps : List Char) (l : Lexer) (rest : List Char), LexerWF l →
    remaining l = sps ++ ((crender E).data ++ rest) →
    (∀ c ∈ sps, isWhitespace c = true) →
    isCharacter (rest.headD NUL) = false →
    isDigit (rest.headD NUL) = false →
    ∃ l2, LexPath l (exprTokens E) l2 ∧ LexerWF l2 ∧
      remaining l2 = rest ∧ l2.input = l.input := by
  induction hE with
  | ident name h1 h2 h3 =>
    intro sps l rest hwf hrem hsps hstopC hstopD
    obtain ⟨d, ds, hdata⟩ : ∃ d ds, name.data = d :: ds := by
      cases hd : name.data with
      | nil => exact absurd hd h1
      | cons d ds => exact ⟨d, ds, rfl⟩
    have hall : ∀ x ∈ d :: ds, isCharacter x = true := by
      rw [← hdata]
      exact h2
    have hremL : remaining l = sps ++ ((d :: ds) ++ rest) := by
      rw [hrem]
      simp [crender, hdata]
    obtain ⟨l2, hnt, hwf2, hrem2, hinp2⟩ :=
      nextToken_letters l sps d ds rest hwf hremL hsps hall hstopC
    have hmk : String.mk (d :: ds) = name := by
      rw [← hdata]
    rw [hmk, h3] at hnt
    refine ⟨l2, ?_, hwf2, hrem2, hinp2⟩
    simp only [exprTokens]
    exact (LexPath_cons _ _ _ _).mpr ⟨l2, hnt, (LexPath_nil l2 l2).mpr rfl⟩
  | int lit v h1 h2 h3 =>
    intro sps l rest hwf hrem hsps hstopC hstopD
    obtain ⟨d, ds, hdata⟩ : ∃ d ds, lit.data = d :: ds := by
      cases hd : lit.data with
      | nil => exact absurd hd h1
      | cons d ds => exact ⟨d, ds, rfl⟩
    have hall : ∀ x ∈ d :: ds, isDigit x = true := by
      rw [← hdata]
      exact h2
    have hremL : remaining l = sps ++ ((d :: ds) ++ rest) := by
      rw [hrem]
      simp [crender, hdata]
    obtain ⟨l2, hnt, hwf2, hrem2, hinp2⟩ :=
      nextToken_digits l sps d ds rest hwf hremL hsps hall hstopD
    have hmk : String.mk (d :: ds) = lit := by
      rw [← hdata]
    rw [hmk] at hnt
    refine ⟨l2, ?_, hwf2, hrem2, hinp2⟩
    simp only [exprTokens]
    exact (LexPath_cons _ _ _ _).mpr ⟨l2, hnt, (LexPath_nil l2 l2).mpr rfl⟩
  | btrue =>
    intro sps l rest hwf hrem hsps hstopC hstopD
    have hremL : remaining l = sps ++ (('t' :: ['r', 'u', 'e']) ++ rest) := by
      rw [hrem]
      have hd : ("true" : String).data = ['t', 'r', 'u', 'e'] := rfl
      simp [crender, hd]
    obtain ⟨l2, hnt, hwf2, hrem2, hinp2⟩ :=
      nextToken_letters l sps 't' ['r', 'u', 'e'] rest hwf hremL hsps (by decide) hstopC
    have htok : ({ type := GetTokenType (String.mk ['t', 'r', 'u', 'e']),
                   literal := String.mk ['t', 'r', 'u', 'e'] } : Token) =
        ⟨TRUE, "true"⟩ := by decide
    rw [htok] at hnt
    refine ⟨l2, ?_, hwf2, hrem2, hinp2⟩
    simp only [exprTokens]
    exact (LexPath_cons _ _ _ _).mpr ⟨l2, hnt, (LexPath_nil l2 l2).mpr rfl⟩
  | bfalse =>
    intro sps l rest hwf hrem hsps hstopC hstopD
    have hremL : remaining l = sps ++ (('f' :: ['a', 'l', 's', 'e']) ++ rest) := by
      rw [hrem]
      have hd : ("false" : String).data = ['f', 'a', 'l', 's', 'e'] := rfl
      simp [crender, hd]
    obtain ⟨l2, hnt, hwf2, hrem2, hinp2⟩ :=
      nextToken_letters l sps 'f' ['a', 'l', 's', 'e'] rest hwf hremL hsps (by decide) hstopC
    have htok : ({ type := GetTokenType (String.mk ['f', 'a', 'l', 's', 'e']),
                   literal := String.mk ['f', 'a', 'l', 's', 'e'] } : Token) =
        ⟨FALSE, "false"⟩ := by decide
    rw [htok] at hnt
    refine ⟨l2, ?_, hwf2, hrem2, hinp2⟩
    simp only [exprTokens]
    exact (LexPath_cons _ _ _ _).mpr ⟨l2, hnt, (LexPath_nil l2 l2).mpr rfl⟩
  | pre t r hop hr ih =>
    intro sps l rest hwf hrem hsps hstopC hstopD
    obtain ⟨c0, cs0, hcd, hc0w, hc0ne⟩ := crender_head r hr
    have hremL : remaining l = sps ++ ('(' ::
        (t.literal.data ++ ((crender r).data ++ (')' :: rest)))) := by
      rw [hrem, crender_pre_data]
      simp [optCrender, List.append_assoc]
    obtain ⟨l2, hnt1, hwf2, hrem2, hinp2⟩ :=
      nextToken_single l sps '(' _ hwf hremL hsps (by decide) (by decide)
        (getTwo_illegal '(' _ (by decide) (by decide)) (by decide)
    have hlp : ({ type := GetSingleCharToken '(', literal := String.mk ['('] } : Token) =
        lparenToken := by decide
    rw [hlp] at hnt1
    rcases hop with rfl | rfl
    · have hhead : (((crender r).data ++ (')' :: rest)).headD NUL) = c0 := by
        rw [hcd]
        rfl
      obtain ⟨l3, hnt2, hwf3, hrem3, hinp3⟩ :=
        nextToken_single l2 [] '!' ((crender r).data ++ (')' :: rest)) hwf2 hrem2
          (by simp) (by decide) (by decide)
          (by rw [hhead]; exact getTwo_bang c0 hc0ne) (by decide)
      have hb : ({ type := GetSingleCharToken '!', literal := String.mk ['!'] } : Token) =
          ⟨BANG, "!"⟩ := by decide
      rw [hb] at hnt2
      obtain ⟨l4, hpath, hwf4, hrem4, hinp4⟩ :=
        ih [] l3 (')' :: rest) hwf3 hrem3 (by simp) (by rw [List.headD_cons]; decide)
          (by rw [List.headD_cons]; decide)
      obtain ⟨l5, hnt4, hwf5, hrem5, hinp5⟩ :=
        nextToken_single l4 [] ')' rest hwf4 hrem4 (by simp) (by decide) (by decide)
          (getTwo_illegal ')' _ (by decide) (by decide)) (by decide)
      have hrp : ({ type := GetSingleCharToken ')', literal := String.mk [')'] } : Token) =
          rparenToken := by decide
      rw [hrp] at hnt4
      refine ⟨l5, ?_, hwf5, hrem5, by rw [hinp5, hinp4, hinp3, hinp2]⟩
      simp only [exprTokens, optTokens]
      refine (LexPath_cons _ _ _ _).mpr ⟨l2, hnt1, ?_⟩
      refine (LexPath_cons _ _ _ _).mpr ⟨l3, hnt2, ?_⟩
      exact LexPath_append (exprTokens r) [rparenToken] l3 l4 l5 hpath
        ((LexPath_cons _ _ _ _).mpr ⟨l5, hnt4, (LexPath_nil l5 l5).mpr rfl⟩)
    · obtain ⟨l3, hnt2, hwf3, hrem3, hinp3⟩ :=
        nextToken_single l2 [] '-' ((crender r).data ++ (')' :: rest)) hwf2 hrem2
          (by simp) (by decide) (by decide)
          (getTwo_illegal '-' _ (by decide) (by decide)) (by decide)
      have hb : ({ type := GetSingleCharToken '-', literal := String.mk ['-'] } : Token) =
          ⟨MINUS, "-"⟩ := by decide
      rw [hb] at hnt2
      obtain ⟨l4, hpath, hwf4, hrem4, hinp4⟩ :=
        ih [] l3 (')' :: rest) hwf3 hrem3 (by simp) (by rw [List.headD_cons]; decide)
          (by rw [List.headD_cons]; decide)
      obtain ⟨l5, hnt4, hwf5, hrem5, hinp5⟩ :=
        nextToken_single l4 [] ')' rest hwf4 hrem4 (by simp) (by decide) (by decide)
          (getTwo_illegal ')' _ (by decide) (by decide)) (by decide)
      have hrp : ({ type := GetSingleCharToken ')', literal := String.mk [')'] } : Token) =
          rparenToken := by decide
      rw [hrp] at hnt4
      refine ⟨l5, ?_, hwf5, hrem5, by rw [hinp5, hinp4, hinp3, hinp2]⟩
      simp only [exprTokens, optTokens]
      refine (LexPath_cons _ _ _ _).mpr ⟨l2, hnt1, ?_⟩
      refine (LexPath_cons _ _ _ _).mpr ⟨l3, hnt2, ?_⟩
      exact LexPath_append (exprTokens r) [rparenToken] l3 l4 l5 hpath
        ((LexPath_cons _ _ _ _).mpr ⟨l5, hnt4, (LexPath_nil l5 l5).mpr rfl⟩)
  | inf t eL eR hop hL hR ihL ihR =>
    intro sps l rest hwf hrem hsps hstopC hstopD
    have hremL : remaining l = sps ++ ('(' ::
        ((crender eL).data ++ ' ' :: (t.literal.data ++ ' ' ::
          ((crender eR).data ++ (')' :: rest))))) := by
      rw [hrem, crender_inf_data]
      simp [optCrender, List.append_assoc]
    obtain ⟨l2, hnt1, hwf2, hrem2, hinp2⟩ :=
      nextToken_single l sps '(' _ hwf hremL hsps (by decide) (by decide)
        (getTwo_illegal '(' _ (by decide) (by decide)) (by decide)
    have hlp : ({ type := GetSingleCharToken '(', literal := String.mk ['('] } : Token) =
        lparenToken := by decide
    rw [hlp] at hnt1
    obtain ⟨l3, hpathL, hwf3, hrem3, hinp3⟩ :=
      ihL [] l2
        (' ' :: (t.literal.data ++ ' ' :: ((crender eR).data ++ (')' :: rest))))
        hwf2 hrem2 (by simp) (by rw [List.headD_cons]; decide)
        (by rw [List.headD_cons]; decide)
    have hfin : (∃ l4, NextToken l3 = (t, l4) ∧ LexerWF l4 ∧
        remaining l4 = ' ' :: ((crender eR).data ++ (')' :: rest)) ∧
        l4.input = l3.input) →
        ∃ l6, LexPath l (exprTokens (Expr.infE t (some eL) t.literal (some eR))) l6 ∧
          LexerWF l6 ∧ remaining l6 = rest ∧ l6.input = l.input := by
      intro hOp
      obtain ⟨l6, hpathT, hwf6, hrem6, hinp6⟩ := lexSeq_inf_finish t eR rest l3 ihR hOp
      refine ⟨l6, ?_, hwf6, hrem6, by rw [hinp6, hinp3, hinp2]⟩
      simp only [exprTokens, optTokens]
      refine (LexPath_cons _ _ _ _).mpr ⟨l2, hnt1, ?_⟩
      exact LexPath_append (exprTokens eL) (t :: (exprTokens eR ++ [rparenToken]))
        l2 l3 l6 hpathL hpathT
    simp only [infixTokens, List.mem_cons, List.not_mem_nil, or_false] at hop
    rcases hop with rfl | rfl | rfl | rfl | rfl | rfl | rfl | rfl
    · refine hfin ?_
      obtain ⟨l4, hnt, hwf4, hrem4, hinp4⟩ :=
        nextToken_single l3 [' '] '+' (' ' :: ((crender eR).data ++ (')' :: rest)))
          hwf3 hrem3 (by decide) (by decide) (by decide)
          (getTwo_illegal '+' _ (by decide) (by decide)) (by decide)
      have ht : ({ type := GetSingleCharToken '+', literal := String.mk ['+'] } : Token) =
          ⟨PLUS, "+"⟩ := by decide
      rw [ht] at hnt
      exact ⟨l4, hnt, hwf4, hrem4, hinp4⟩
    · refine hfin ?_
      obtain ⟨l4, hnt, hwf4, hrem4, hinp4⟩ :=
        nextToken_single l3 [' '] '-' (' ' :: ((crender eR).data ++ (')' :: rest)))
          hwf3 hrem3 (by decide) (by decide) (by decide)
          (getTwo_illegal '-' _ (by decide) (by decide)) (by decide)
      have ht : ({ type := GetSingleCharToken '-', literal := String.mk ['-'] } : Token) =
          ⟨MINUS, "-"⟩ := by decide
      rw [ht] at hnt
      exact ⟨l4, hnt, hwf4, hrem4, hinp4⟩
    · refine hfin ?_
      obtain ⟨l4, hnt, hwf4, hrem4, hinp4⟩ :=
        nextToken_single l3 [' '] '*' (' ' :: ((crender eR).data ++ (')' :: rest)))
          hwf3 hrem3 (by decide) (by decide) (by decide)
          (getTwo_illegal '*' _ (by decide) (by decide)) (by decide)
      have ht : ({ type := GetSingleCharToken '*', literal := String.mk ['*'] } : Token) =
          ⟨ASTERISK, "*"⟩ := by decide
      rw [ht] at hnt
      exact ⟨l4, hnt, hwf4, hrem4, hinp4⟩
    · refine hfin ?_
      obtain ⟨l4, hnt, hwf4, hrem4, hinp4⟩ :=
        nextToken_single l3 [' '] '/' (' ' :: ((crender eR).data ++ (')' :: rest)))
          hwf3 hrem3 (by decide) (by decide) (by decide)
          (getTwo_illegal '/' _ (by decide) (by decide)) (by decide)
      have ht : ({ type := GetSingleCharToken '/', literal := String.mk ['/'] } : Token) =
          ⟨SLASH, "/"⟩ := by decide
      rw [ht] at hnt
      exact ⟨l4, hnt, hwf4, hrem4, hinp4⟩
    · refine hfin ?_
      obtain ⟨l4, hnt, hwf4, hrem4, hinp4⟩ :=
        nextToken_single l3 [' '] '<' (' ' :: ((crender eR).data ++ (')' :: rest)))
          hwf3 hrem3 (by decide) (by decide) (by decide)
          (getTwo_illegal '<' _ (by decide) (by decide)) (by decide)
      have ht : ({ type := GetSingleCharToken '<', literal := String.mk ['<'] } : Token) =
          ⟨LTtk, "<"⟩ := by decide
      rw [ht] at hnt
      exact ⟨l4, hnt, hwf4, hrem4, hinp4⟩
    · refine hfin ?_
      obtain ⟨l4, hnt, hwf4, hrem4, hinp4⟩ :=
        nextToken_single l3 [' '] '>' (' ' :: ((crender eR).data ++ (')' :: rest)))
          hwf3 hrem3 (by decide) (by decide) (by decide)
          (getTwo_illegal '>' _ (by decide) (by decide)) (by decide)
      have ht : ({ type := GetSingleCharToken '>', literal := String.mk ['>'] } : Token) =
          ⟨GTtk, ">"⟩ := by decide
      rw [ht] at hnt
      exact ⟨l4, hnt, hwf4, hrem4, hinp4⟩
    · refine hfin ?_
      obtain ⟨l4, hnt, hwf4, hrem4, hinp4⟩ :=
        nextToken_two l3 [' '] '=' '=' (' ' :: ((crender eR).data ++ (')' :: rest)))
          hwf3 hrem3 (by decide) (by decide) (by decide) (by decide)
      have ht : ({ type := GetTwoCharToken (String.mk ['=', '=']),
                   literal := String.mk ['=', '='] } : Token) = ⟨EQtk, "=="⟩ := by decide
      rw [ht] at hnt
      exact ⟨l4, hnt, hwf4, hrem4, hinp4⟩
    · refine hfin ?_
      obtain ⟨l4, hnt, hwf4, hrem4, hinp4⟩ :=
        nextToken_two l3 [' '] '!' '=' (' ' :: ((crender eR).data ++ (')' :: rest)))
          hwf3 hrem3 (by decide) (by decide) (by decide) (by decide)
      have ht : ({ type := GetTwoCharToken (String.mk ['!', '=']),
                   literal := String.mk ['!', '='] } : Token) = ⟨NOTEQ, "!="⟩ := by decide
      rw [ht] at hnt
      exact ⟨l4, hnt, hwf4, hrem4, hinp4⟩

/-- `lexer.New` produces a well-formed cursor at the start of the input. -/
theorem lexerNew_spec (input : List Char) :
    LexerWF (lexerNew input) ∧ remaining (lexerNew input) = input ∧
    (lexerNew input).input = input := by
  have h1 : (lexerNew input).position = 0 := rfl
  have h2 : (lexerNew input).input = input := rfl
  have h3 : (lexerNew input).nextPosition = if 0 < input.length then 1 else 0 := rfl
  have h4 : (lexerNew input).ch =
      (if h : 0 < input.length then input.get ⟨0, h⟩ else NUL) := rfl
  refine ⟨⟨?_, ?_, ?_⟩, ?_, h2⟩
  · rw [h1, h2]
    omega
  · rw [h3, h1, h2, Nat.min_def]
    split_ifs <;> omega
  · rw [h4, h1, h2]
  · unfold remaining
    rw [h1, h2]
    exact List.drop_zero input

/-- `NextToken` at the end sentinel returns the `EOF` token and moves
nothing. -/
theorem nextToken_nul (l : Lexer) (hch : l.ch = NUL) :
    NextToken l = ({ type := EOF, literal := "" }, l) := by
  unfold NextToken
  rw [consumeWhitespaces_at_nul l hch]
  unfold runLexlets eofLexlet
  simp [hch]

/-- Collecting tokens along a `LexPath` that ends where `NextToken` returns
`EOF` yields exactly the path's tokens. -/
theorem lexAllAux_of_path (ts : List Token) : ∀ (l l2 : Lexer) (fuel : Nat),
    LexPath l ts l2 → (∀ t ∈ ts, t.type ≠ EOF) → (NextToken l2).1.type = EOF →
    ts.length < fuel → lexAllAux fuel l = ts := by
  induction ts with
  | nil =>
    intro l l2 fuel hp hne heof hf
    obtain ⟨f, rfl⟩ : ∃ f, fuel = f + 1 := ⟨fuel - 1, by omega⟩
    have he : l = l2 := hp
    subst he
    unfold lexAllAux
    simp [heof]
  | cons t ts ih =>
    intro l l2 fuel hp hne heof hf
    obtain ⟨f, rfl⟩ : ∃ f, fuel = f + 1 := ⟨fuel - 1, by omega⟩
    obtain ⟨lm, hnt, hrest⟩ := (LexPath_cons l l2 t ts).mp hp
    unfold lexAllAux
    simp only [hnt]
    rw [if_neg (hne t (by simp))]
    rw [ih lm l2 f hrest (fun x hx => hne x (by simp [hx])) heof (by simp at hf; omega)]

/-- No token of a closed fragment expression is the end marker. -/
theorem exprTokens_ne_eof (E : Expr) (hE : ClosedExpr E) :
    ∀ t ∈ exprTokens E, t.type ≠ EOF := by
  induction hE with
  | ident name h1 h2 h3 =>
    intro x hx
    simp [exprTokens] at hx
    subst hx
    intro h
    simp at h
    exact absurd h (by decide)
  | int lit v h1 h2 h3 =>
    intro x hx
    simp [exprTokens] at hx
    subst hx
    intro h
    simp at h
    exact absurd h (by decide)
  | btrue =>
    intro x hx
    simp [exprTokens] at hx
    subst hx
    intro h
    simp at h
    exact absurd h (by decide)
  | bfalse =>
    intro x hx
    simp [exprTokens] at hx
    subst hx
    intro h
    simp at h
    exact absurd h (by decide)
  | pre t r hop hr ih =>
    intro x hx
    simp only [exprTokens, optTokens, List.mem_cons, List.mem_append,
      List.mem_singleton, List.not_mem_nil, or_false] at hx
    rcases hx with rfl | rfl | hx | rfl
    · decide
    · rcases hop with rfl | rfl <;> decide
    · exact ih x hx
    · decide
  | inf t eL eR hop hL hR ihL ihR =>
    intro x hx
    simp only [exprTokens, optTokens, List.mem_cons, List.mem_append,
      List.mem_singleton, List.not_mem_nil, or_false] at hx
    rcases hx with rfl | hx | rfl | hx | rfl
    · decide
    · exact ihL x hx
    · fin_cases hop <;> decide
    · exact ihR x hx
    · decide

/-- A closed fragment expression never has more tokens than rendered
characters. -/
theorem exprTokens_length_le (E : Expr) (hE : ClosedExpr E) :
    (exprTokens E).length ≤ (crender E).data.length := by
  induction hE with
  | ident name h1 h2 h3 =>
    have hl : 0 < name.data.length := List.length_pos.mpr h1
    simp only [exprTokens, crender, List.length_singleton]
    omega
  | int lit v h1 h2 h3 =>
    have hl : 0 < lit.data.length := List.length_pos.mpr h1
    simp only [exprTokens, crender, List.length_singleton]
    omega
  | btrue => decide
  | bfalse => decide
  | pre t r hop hr ih =>
    have hlit : t.literal.data.length = 1 := by
      rcases hop with rfl | rfl <;> decide
    simp only [exprTokens, optTokens, crender_pre_data, optCrender]
    simp only [List.length_cons, List.length_append, List.length_singleton,
      List.length_nil]
    omega
  | inf t eL eR hop hL hR ihL ihR =>
    have hlit : 1 ≤ t.literal.data.length := by
      fin_cases hop <;> decide
    simp only [exprTokens, optTokens, crender_inf_data, optCrender]
    simp only [List.length_cons, List.length_append, List.length_singleton,
      List.length_nil]
    omega

/-- Lexing the full rendering of a closed fragment expression produces
exactly its token sequence. -/
theorem lexAll_crender (E : Expr) (hE : ClosedExpr E) :
    lexAll (crender E).data = exprTokens E := by
  obtain ⟨hwf0, hrem0, hinp0⟩ := lexerNew_spec (crender E).data
  obtain ⟨l2, hpath, hwf2, hrem2, hinp2⟩ :=
    lexSeq E hE [] (lexerNew (crender E).data) [] hwf0
      (by rw [hrem0]; simp) (by simp) (by decide) (by decide)
  have hch2 : l2.ch = NUL := by
    rw [LexerWF_ch l2 hwf2, hrem2]
    rfl
  unfold lexAll
  exact lexAllAux_of_path (exprTokens E) _ l2 _ hpath (exprTokens_ne_eof E hE)
    (by rw [nextToken_nul l2 hch2]) (by
      have h1 := exprTokens_length_le E hE
      omega)

/-- `addError` does not touch the token stream. -/
theorem addError_toks (e : String) (st : PState) : (addError e st).toks = st.toks := rfl

/-- `addError` does not change the current token. -/
theorem currentToken_addError (e : String) (st : PState) :
    currentToken (addError e st) = currentToken st := rfl

/-- `consumeNextToken` never lengthens the stream. -/
theorem consumeNextToken_toks_le (st : PState) :
    (consumeNextToken st).toks.length ≤ st.toks.length := by
  unfold consumeNextToken
  split
  · exact le_refl _
  · simp only [List.length_tail]
    omega

/-- `consumeNextToken` strictly shortens the stream when the current token
is not the end marker. -/
theorem consumeNextToken_toks_lt (st : PState) (h : (currentToken st).type ≠ EOF) :
    (consumeNextToken st).toks.length < st.toks.length := by
  have hne : st.toks ≠ [] := fun hnil => h (by simp [currentToken, hnil, eofToken])
  unfold consumeNextToken
  rw [if_neg h]
  simp only [List.length_tail]
  have hpos : 0 < st.toks.length := List.length_pos.mpr hne
  omega

/-- `consumeToken` unfolded to its two stages. -/
theorem consumeToken_eq (t : TokType) (st : PState) :
    consumeToken t st =
      consumeNextToken (if (currentToken st).type ≠ t
        then addError ("Could not properly consume token: " ++ fmtToken (currentToken st) ++
          " expected: " ++ t) st else st) := rfl

/-- Recording a diagnostic first does not change how the stream advances. -/
theorem consumeNextToken_addError_toks (e : String) (st : PState) :
    (consumeNextToken (addError e st)).toks = (consumeNextToken st).toks := by
  unfold consumeNextToken addError currentToken
  split_ifs <;> rfl

/-- `consumeToken` moves the stream exactly as `consumeNextToken` does. -/
theorem consumeToken_toks (t : TokType) (st : PState) :
    (consumeToken t st).toks = (consumeNextToken st).toks := by
  rw [consumeToken_eq]
  split_ifs with hm
  · exact consumeNextToken_addError_toks _ st
  · rfl

/-- `consumeToken` never lengthens the stream. -/
theorem consumeToken_toks_le (t : TokType) (st : PState) :
    (consumeToken t st).toks.length ≤ st.toks.length := by
  rw [consumeToken_toks]
  exact consumeNextToken_toks_le st

/-- `consumeToken` strictly shortens the stream when the current token is
not the end marker. -/
theorem consumeToken_toks_lt (t : TokType) (st : PState) (h : (currentToken st).type ≠ EOF) :
    (consumeToken t st).toks.length < st.toks.length := by
  rw [consumeToken_toks]
  exact consumeNextToken_toks_lt st h

/-- `parseIdentifier` advances exactly one `consumeNextToken`. -/
theorem parseIdentifier_snd (st : PState) : (parseIdentifier st).2 = consumeNextToken st := rfl

/-- `parseIntegerLiteral` advances the stream exactly one token whether or
not the literal parses. -/
theorem parseIntegerLiteral_toks (st : PState) :
    (parseIntegerLiteral st).2.toks = (consumeNextToken st).toks := by
  unfold parseIntegerLiteral
  cases hval : goParseInt (currentToken st).literal <;> simp [hval, addError]

/-- `parseBooleanLiteral` advances exactly one `consumeNextToken`. -/
theorem parseBooleanLiteral_snd (st : PState) :
    (parseBooleanLiteral st).2 = consumeNextToken st := rfl

/-- Splitting a successful `bind` into its two stages. -/
theorem PRes_bind_ok {α β : Type} {r : PRes α} {f : α → PState → PRes β}
    {b : β} {st' : PState} (h : r.bind f = .ok b st') :
    ∃ a st1, r = .ok a st1 ∧ f a st1 = .ok b st' := by
  cases r with
  | ok a st1 => exact ⟨a, st1, rfl, h⟩
  | goPanic m => exact nomatch h
  | fuelOut => exact nomatch h

/-- A `bind` avoids fuel exhaustion when both stages do. -/
theorem PRes_bind_ne_fuelOut {α β : Type} {r : PRes α} {f : α → PState → PRes β}
    (h1 : r ≠ .fuelOut) (h2 : ∀ a st, r = .ok a st → f a st ≠ .fuelOut) :
    r.bind f ≠ .fuelOut := by
  cases r with
  | ok a st1 => exact h2 a st1 rfl
  | goPanic m => exact fun h => nomatch h
  | fuelOut => exact absurd rfl h1

/-- The successor-fuel unfolding of `parseStatement`. -/
theorem parseStatement_succ (n : Nat) (st : PState) :
    parseStatement (n + 1) st =
      (if (currentToken st).type = LET then letStatementParselet n st
       else if (currentToken st).type = RETURN then returnStatementParselet n st
       else if (currentToken st).type = LBRACE then
         (blockStatementParselet n st).bind fun b st2 => .ok (b.map Stmt.blockS) st2
       else expressionStatementParselet n st) := rfl

/-- The successor-fuel unfolding of `letStatementParselet`. -/
theorem letStatementParselet_succ (n : Nat) (st : PState) :
    letStatementParselet (n + 1) st =
      (if (currentToken st).type ≠ LET then .ok none st
       else
         (parseExpression n LOWEST
             (consumeToken ASSIGN (consumeToken IDENT (consumeToken LET st)))).bind
           fun v st2 =>
             .ok (some (.letS (currentToken st)
               ⟨currentToken (consumeToken LET st),
                 (currentToken (consumeToken LET st)).literal⟩ v))
               (consumeToken SEMICOLON st2)) := rfl

/-- The successor-fuel unfolding of `returnStatementParselet`. -/
theorem returnStatementParselet_succ (n : Nat) (st : PState) :
    returnStatementParselet (n + 1) st =
      (if (currentToken st).type ≠ RETURN then .ok none st
       else
         (parseExpression n LOWEST (consumeToken RETURN st)).bind fun v st2 =>
           .ok (some (.returnS (currentToken st) v)) (consumeToken SEMICOLON st2)) := rfl

/-- The successor-fuel unfolding of `expressionStatementParselet`. -/
theorem expressionStatementParselet_succ (n : Nat) (st : PState) :
    expressionStatementParselet (n + 1) st =
      ((parseExpression n LOWEST st).bind fun e st2 =>
        .ok (some (.exprS (currentToken st) e))
          (if (currentToken st2).type = SEMICOLON then consumeToken SEMICOLON st2 else st2)) :=
  rfl

/-- The successor-fuel unfolding of `blockStatementParselet`. -/
theorem blockStatementParselet_succ (n : Nat) (st : PState) :
    blockStatementParselet (n + 1) st =
      (if (currentToken st).type ≠ LBRACE then .ok none st
       else
         (blockLoop n [] (consumeToken LBRACE st)).bind fun stmts st2 =>
           .ok (some (.mk (currentToken st) stmts)) (consumeToken RBRACE st2)) := rfl

/-- The successor-fuel unfolding of `blockLoop`. -/
theorem blockLoop_succ (n : Nat) (acc : List (Option Stmt)) (st : PState) :
    blockLoop (n + 1) acc st =
      (if (currentToken st).type = EOF ∨ (currentToken st).type = RBRACE then .ok acc st
       else (parseStatement n st).bind fun s st2 => blockLoop n (acc ++ [s]) st2) := rfl

/-- The successor-fuel unfolding of `parseExpression`. -/
theorem parseExpression_succ (n prec : Nat) (st : PState) :
    parseExpression (n + 1) prec st =
      (if (currentToken st).type = IDENT then
        infLoop n prec (some (.identE (parseIdentifier st).1)) (parseIdentifier st).2
      else if (currentToken st).type = INT then
        infLoop n prec (parseIntegerLiteral st).1 (parseIntegerLiteral st).2
      else if (currentToken st).type = TRUE ∨ (currentToken st).type = FALSE then
        infLoop n prec (parseBooleanLiteral st).1 (parseBooleanLiteral st).2
      else if (currentToken st).type = BANG ∨ (currentToken st).type = MINUS then
        (parsePreOperator n st).bind fun e st2 => infLoop n prec e st2
      else if (currentToken st).type = LPAREN then
        (parseGroupedExpression n st).bind fun e st2 => infLoop n prec e st2
      else if (currentToken st).type = IF then
        (parseIfExpression n st).bind fun e st2 => infLoop n prec e st2
      else if (currentToken st).type = FUNCTION then
        (parseFunctionExpression n st).bind fun e st2 => infLoop n prec e st2
      else
        .ok none (consumeNextToken (addError ("Unable to consume prefix: " ++
          fmtToken (currentToken st)) st))) := rfl

/-- The successor-fuel unfolding of the infix loop. -/
theorem infLoop_succ (n prec : Nat) (left : Option Expr) (st : PState) :
    infLoop (n + 1) prec left st =
      (if (currentToken st).type = SEMICOLON then .ok left st
       else if ¬ prec < getCurrentPrecedence st then .ok left st
       else if (currentToken st).type = PLUS ∨ (currentToken st).type = MINUS ∨
           (currentToken st).type = ASTERISK ∨ (currentToken st).type = SLASH ∨
           (currentToken st).type = LTtk ∨ (currentToken st).type = GTtk ∨
           (currentToken st).type = EQtk ∨ (currentToken st).type = NOTEQ then
         (parseInfExpression n left st).bind fun e st2 => infLoop n prec e st2
       else .ok left st) := rfl

/-- The successor-fuel unfolding of `parseInfExpression`. -/
theorem parseInfExpression_succ (n : Nat) (left : Option Expr) (st : PState) :
    parseInfExpression (n + 1) left st =
      ((parseExpression n (getCurrentPrecedence st) (consumeNextToken st)).bind fun r st2 =>
        .ok (some (.infE (currentToken st) left (currentToken st).literal r)) st2) := rfl

/-- The successor-fuel unfolding of `parsePreOperator`. -/
theorem parsePreOperator_succ (n : Nat) (st : PState) :
    parsePreOperator (n + 1) st =
      ((parseExpression n PREC_UNARY (consumeNextToken st)).bind fun r st2 =>
        .ok (some (.preE (currentToken st) (currentToken st).literal r)) st2) := rfl

/-- The successor-fuel unfolding of `parseGroupedExpression`. -/
theorem parseGroupedExpression_succ (n : Nat) (st : PState) :
    parseGroupedExpression (n + 1) st =
      ((parseExpression n LOWEST (consumeToken LPAREN st)).bind fun e st2 =>
        .ok e (consumeToken RPAREN st2)) := rfl

/-- The successor-fuel unfolding of `parseIfExpression`. -/
theorem parseIfExpression_succ (n : Nat) (st : PState) :
    parseIfExpression (n + 1) st =
      ((parseExpression n LOWEST (consumeToken LPAREN (consumeToken IF st))).bind
        fun c st2 =>
          (blockStatementParselet n (consumeToken RPAREN st2)).bind fun consq st3 =>
            match consq with
            | none => .goPanic nilBlockAssertionMsg
            | some consequence =>
              if (currentToken st3).type ≠ ELSE then
                .ok (some (.ifE (currentToken st) c consequence none)) st3
              else
                (blockStatementParselet n (consumeToken ELSE st3)).bind fun alt st4 =>
                  match alt with
                  | none => .goPanic nilBlockAssertionMsg
                  | some alternative =>
                    .ok (some (.ifE (currentToken st) c consequence (some alternative))) st4) :=
  rfl

/-- The successor-fuel unfolding of `parseFunctionExpression`. -/
theorem parseFunctionExpression_succ (n : Nat) (st : PState) :
    parseFunctionExpression (n + 1) st =
      ((paramLoop n [] (consumeToken LPAREN (consumeToken FUNCTION st))).bind fun ps st2 =>
        (blockStatementParselet n (consumeToken RPAREN st2)).bind fun b st3 =>
          match b with
          | none => .goPanic nilBlockAssertionMsg
          | some body => .ok (some (.funcLit (currentToken st) ps body)) st3) := rfl

/-- The successor-fuel unfolding of the program loop. -/
theorem programLoop_succ (n : Nat) (acc : List (Option Stmt)) (st : PState) :
    programLoop (n + 1) acc st =
      (if (currentToken st).type = EOF then .ok acc st
       else (parseStatement n st).bind fun s st2 => programLoop n (acc ++ [s]) st2) := rfl

/-- The successor-fuel unfolding of the parameter loop. -/
theorem paramLoop_succ (n : Nat) (acc : List Identifier) (st : PState) :
    paramLoop (n + 1) acc st =
      if (currentToken st).type = EOF ∨ (currentToken st).type = RPAREN then .ok acc st
      else
        paramLoop n (acc ++ [(parseIdentifier st).1])
          (if (currentToken (parseIdentifier st).2).type = COMMA
           then consumeToken COMMA (parseIdentifier st).2 else (parseIdentifier st).2) :=
  rfl

/-- The precedence the parser sees at an explicit token cons. -/
theorem getCurrentPrecedence_cons (t : Token) (ts : List Token) (errs : List String) :
    getCurrentPrecedence ⟨t :: ts, errs⟩ = tokenPrecedence t.type := rfl

/-- The precedence the parser sees at an exhausted stream. -/
theorem getCurrentPrecedence_nil (errs : List String) :
    getCurrentPrecedence ⟨[], errs⟩ = LOWEST := rfl

/-- Advancing past an explicit non-`EOF` token. -/
theorem consumeNextToken_cons (t : Token) (ts : List Token) (errs : List String)
    (h : t.type ≠ EOF) :
    consumeNextToken ⟨t :: ts, errs⟩ = ⟨ts, errs⟩ := by
  unfold consumeNextToken currentToken
  simp only [List.headD_cons]
  rw [if_neg h]
  rfl

/-- A matching `consumeToken` at an explicit token cons just advances. -/
theorem consumeToken_cons (T : TokType) (t : Token) (ts : List Token)
    (errs : List String) (ht : t.type = T) (h : t.type ≠ EOF) :
    consumeToken T ⟨t :: ts, errs⟩ = ⟨ts, errs⟩ := by
  rw [consumeToken_eq]
  have hcur : currentToken ⟨t :: ts, errs⟩ = t := rfl
  rw [hcur, if_neg (not_not_intro ht)]
  exact consumeNextToken_cons t ts errs h

/-- `PRes.bind` on a successful result. -/
theorem PRes_bind_ok_eq {α β : Type} (a : α) (st : PState) (f : α → PState → PRes β) :
    PRes.bind (.ok a st) f = f a st := rfl

/-- Prefix dispatch at an identifier token. -/
theorem parseExpression_at_IDENT (n prec : Nat) (lit : String) (ts : List Token)
    (errs : List String) :
    parseExpression (n + 1) prec ⟨⟨IDENT, lit⟩ :: ts, errs⟩ =
      infLoop n prec (some (.identE ⟨⟨IDENT, lit⟩, lit⟩)) ⟨ts, errs⟩ := rfl

/-- Prefix dispatch at an integer token. -/
theorem parseExpression_at_INT (n prec : Nat) (lit : String) (ts : List Token)
    (errs : List String) :
    parseExpression (n + 1) prec ⟨⟨INT, lit⟩ :: ts, errs⟩ =
      infLoop n prec (parseIntegerLiteral ⟨⟨INT, lit⟩ :: ts, errs⟩).1
        (parseIntegerLiteral ⟨⟨INT, lit⟩ :: ts, errs⟩).2 := rfl

/-- Prefix dispatch at the `true` keyword token. -/
theorem parseExpression_at_TRUE (n prec : Nat) (ts : List Token) (errs : List String) :
    parseExpression (n + 1) prec ⟨⟨TRUE, "true"⟩ :: ts, errs⟩ =
      infLoop n prec (some (.boolLit ⟨TRUE, "true"⟩ true)) ⟨ts, errs⟩ := rfl

/-- Prefix dispatch at the `false` keyword token. -/
theorem parseExpression_at_FALSE (n prec : Nat) (ts : List Token) (errs : List String) :
    parseExpression (n + 1) prec ⟨⟨FALSE, "false"⟩ :: ts, errs⟩ =
      infLoop n prec (some (.boolLit ⟨FALSE, "false"⟩ false)) ⟨ts, errs⟩ := rfl

/-- Prefix dispatch at a unary operator token. -/
theorem parseExpression_at_op (n prec : Nat) (t : Token) (ts : List Token)
    (errs : List String) (h : t.type = BANG ∨ t.type = MINUS) :
    parseExpression (n + 1) prec ⟨t :: ts, errs⟩ =
      (parsePreOperator n ⟨t :: ts, errs⟩).bind fun e st2 => infLoop n prec e st2 := by
  rw [parseExpression_succ]
  have hcur : currentToken ⟨t :: ts, errs⟩ = t := rfl
  rw [hcur]
  rcases h with h | h
  · rw [if_neg (by rw [h]; decide), if_neg (by rw [h]; decide),
      if_neg (by rw [h]; decide), if_pos (Or.inl h)]
  · rw [if_neg (by rw [h]; decide), if_neg (by rw [h]; decide),
      if_neg (by rw [h]; decide), if_pos (Or.inr h)]

/-- Prefix dispatch at an opening parenthesis. -/
theorem parseExpression_at_LPAREN (n prec : Nat) (ts : List Token) (errs : List String) :
    parseExpression (n + 1) prec ⟨lparenToken :: ts, errs⟩ =
      (parseGroupedExpression n ⟨lparenToken :: ts, errs⟩).bind
        fun e st2 => infLoop n prec e st2 := rfl

/-- One unary-operator step at an explicit token cons. -/
theorem parsePreOperator_cons (n : Nat) (t : Token) (ts : List Token)
    (errs : List String) (h : t.type ≠ EOF) :
    parsePreOperator (n + 1) ⟨t :: ts, errs⟩ =
      (parseExpression n PREC_UNARY ⟨ts, errs⟩).bind fun r st2 =>
        .ok (some (.preE t t.literal r)) st2 := by
  rw [parsePreOperator_succ, consumeNextToken_cons t ts errs h]
  rfl

/-- One grouped-expression step at the opening parenthesis. -/
theorem parseGrouped_cons (n : Nat) (ts : List Token) (errs : List String) :
    parseGroupedExpression (n + 1) ⟨lparenToken :: ts, errs⟩ =
      (parseExpression n LOWEST ⟨ts, errs⟩).bind fun e st2 =>
        .ok e (consumeToken RPAREN st2) := by
  rw [parseGroupedExpression_succ, consumeToken_cons LPAREN lparenToken ts errs rfl
    (by decide)]

/-- One infix-operator step at an explicit token cons. -/
theorem parseInf_cons (n : Nat) (left : Option Expr) (t : Token) (ts : List Token)
    (errs : List String) (h : t.type ≠ EOF) :
    parseInfExpression (n + 1) left ⟨t :: ts, errs⟩ =
      (parseExpression n (tokenPrecedence t.type) ⟨ts, errs⟩).bind fun r st2 =>
        .ok (some (.infE t left t.literal r)) st2 := by
  rw [parseInfExpression_succ, consumeNextToken_cons t ts errs h]
  rfl

/-- The precedence loop stops when the current token binds no tighter than
the ambient precedence. -/
theorem infLoop_stop (n prec : Nat) (left : Option Expr) (ts : List Token)
    (errs : List String) (h : getCurrentPrecedence ⟨ts, errs⟩ ≤ prec) :
    infLoop (n + 1) prec left ⟨ts, errs⟩ = .ok left ⟨ts, errs⟩ := by
  rw [infLoop_succ]
  split_ifs with h1 h2 h3
  · rfl
  · exfalso
    omega
  · exfalso
    omega
  · rfl

/-- The precedence loop takes the registered infix parser when the current
operator binds tighter. -/
theorem infLoop_op (n prec : Nat) (left : Option Expr) (t : Token) (ts : List Token)
    (errs : List String) (h1 : t.type ≠ SEMICOLON)
    (h2 : prec < tokenPrecedence t.type)
    (h3 : t.type = PLUS ∨ t.type = MINUS ∨ t.type = ASTERISK ∨ t.type = SLASH ∨
      t.type = LTtk ∨ t.type = GTtk ∨ t.type = EQtk ∨ t.type = NOTEQ) :
    infLoop (n + 1) prec left ⟨t :: ts, errs⟩ =
      (parseInfExpression n left ⟨t :: ts, errs⟩).bind fun e st2 =>
        infLoop n prec e st2 := by
  rw [infLoop_succ]
  have hcur : currentToken ⟨t :: ts, errs⟩ = t := rfl
  rw [hcur, getCurrentPrecedence_cons]
  rw [if_neg h1, if_neg (not_not_intro h2), if_pos h3]

/-- Fuel bound of a prefix node. -/
theorem cfuel_pre (t : Token) (op : String) (r : Expr) :
    cfuel (.preE t op (some r)) = cfuel r + 6 := by
  simp [cfuel, optCfuel]

/-- Fuel bound of an infix node. -/
theorem cfuel_inf (t : Token) (op : String) (l r : Expr) :
    cfuel (.infE t (some l) op (some r)) = cfuel l + cfuel r + 8 := by
  simp [cfuel, optCfuel]

/-- Every fragment fuel bound is at least two. -/
theorem cfuel_ge_two (E : Expr) : 2 ≤ cfuel E := by
  cases E <;> simp [cfuel] <;> omega

/-- `parseIntegerLiteral` at an integer token whose literal parses. -/
theorem parseIntegerLiteral_cons_ok (lit : String) (v : Int) (rest : List Token)
    (errs : List String) (h3 : goParseInt lit = some v) :
    parseIntegerLiteral ⟨⟨INT, lit⟩ :: rest, errs⟩ =
      (some (.intLit ⟨INT, lit⟩ v), ⟨rest, errs⟩) := by
  simp only [parseIntegerLiteral]
  rw [show currentToken ⟨(⟨INT, lit⟩ : Token) :: rest, errs⟩ = ⟨INT, lit⟩ from rfl,
    consumeNextToken_cons _ _ _ (show INT ≠ EOF by decide)]
  simp only [h3]

/-- Re-parsing the token sequence of a closed fragment expression consumes
exactly those tokens, rebuilds the very same expression, and hands it to
the precedence loop over the remaining tokens. -/
theorem parse_closed (E : Expr) (hE : ClosedExpr E) :
    ∀ (n : Nat) (rest : List Token) (errs : List String) (prec : Nat),
    cfuel E ≤ n + 1 →
    parseExpression (n + 1) prec ⟨exprTokens E ++ rest, errs⟩ =
      infLoop n prec (some E) ⟨rest, errs⟩ := by
  induction hE with
  | ident name h1 h2 h3 =>
    intro n rest errs prec hf
    have htokE : exprTokens (.identE ⟨⟨IDENT, name⟩, name⟩) =
        [(⟨IDENT, name⟩ : Token)] := by
      simp [exprTokens]
    rw [htokE, List.singleton_append, parseExpression_at_IDENT]
  | int lit v h1 h2 h3 =>
    intro n rest errs prec hf
    have htokE : exprTokens (.intLit ⟨INT, lit⟩ v) = [(⟨INT, lit⟩ : Token)] := by
      simp [exprTokens]
    rw [htokE, List.singleton_append, parseExpression_at_INT,
      parseIntegerLiteral_cons_ok lit v rest errs h3]
  | btrue =>
    intro n rest errs prec hf
    have htokE : exprTokens (.boolLit ⟨TRUE, "true"⟩ true) =
        [(⟨TRUE, "true"⟩ : Token)] := by
      simp [exprTokens]
    rw [htokE, List.singleton_append, parseExpression_at_TRUE]
  | bfalse =>
    intro n rest errs prec hf
    have htokE : exprTokens (.boolLit ⟨FALSE, "false"⟩ false) =
        [(⟨FALSE, "false"⟩ : Token)] := by
      simp [exprTokens]
    rw [htokE, List.singleton_append, parseExpression_at_FALSE]
  | pre t r hop hr ih =>
    intro n rest errs prec hf
    rw [cfuel_pre] at hf
    have hge := cfuel_ge_two r
    obtain ⟨m, rfl⟩ : ∃ m, n = m + 5 := ⟨n - 5, by omega⟩
    have htokE : exprTokens (.preE t t.literal (some r)) =
        lparenToken :: t :: (exprTokens r ++ [rparenToken]) := by
      simp [exprTokens, optTokens]
    rw [htokE]
    simp only [List.cons_append, List.append_assoc, List.singleton_append,
      List.nil_append]
    rcases hop with rfl | rfl <;>
      (rw [parseExpression_at_LPAREN, parseGrouped_cons (m + 4),
        parseExpression_at_op (m + 3) LOWEST _ _ _ (by decide),
        parsePreOperator_cons (m + 2) _ _ _ (by decide),
        ih (m + 1) (rparenToken :: rest) errs PREC_UNARY (by omega),
        infLoop_stop m PREC_UNARY (some r) (rparenToken :: rest) errs
          (by rw [getCurrentPrecedence_cons]; decide)]
       simp only [PRes_bind_ok_eq]
       rw [infLoop_stop (m + 2) LOWEST _ (rparenToken :: rest) errs
         (by rw [getCurrentPrecedence_cons]; decide)]
       simp only [PRes_bind_ok_eq]
       rw [consumeToken_cons RPAREN rparenToken rest errs rfl (by decide)])
  | inf t eL eR hop hL hR ihL ihR =>
    intro n rest errs prec hf
    rw [cfuel_inf] at hf
    have hgeL := cfuel_ge_two eL
    have hgeR := cfuel_ge_two eR
    obtain ⟨m, rfl⟩ : ∃ m, n = m + 7 := ⟨n - 7, by omega⟩
    have htokE : exprTokens (.infE t (some eL) t.literal (some eR)) =
        lparenToken :: (exprTokens eL ++ t :: (exprTokens eR ++ [rparenToken])) := by
      simp [exprTokens, optTokens]
    rw [htokE]
    simp only [List.cons_append, List.append_assoc, List.singleton_append,
      List.nil_append]
    fin_cases hop <;>
      (rw [parseExpression_at_LPAREN, parseGrouped_cons (m + 6),
        ihL (m + 5) _ errs LOWEST (by omega),
        infLoop_op (m + 4) LOWEST (some eL) _ _ errs (by decide) (by decide) (by decide),
        parseInf_cons (m + 3) (some eL) _ _ errs (by decide),
        ihR (m + 2) (rparenToken :: rest) errs _ (by omega),
        infLoop_stop (m + 1) _ (some eR) (rparenToken :: rest) errs
          (by rw [getCurrentPrecedence_cons]; decide)]
       simp only [PRes_bind_ok_eq]
       rw [infLoop_stop (m + 3) LOWEST _ (rparenToken :: rest) errs
         (by rw [getCurrentPrecedence_cons]; decide)]
       simp only [PRes_bind_ok_eq]
       rw [consumeToken_cons RPAREN rparenToken rest errs rfl (by decide)])

/-- The token list of a closed fragment expression starts with one of the
five registered prefix-parser token kinds. -/
theorem exprTokens_shape (E : Expr) (hE : ClosedExpr E) :
    ∃ t ts, exprTokens E = t :: ts ∧
      (t.type = IDENT ∨ t.type = INT ∨ t.type = TRUE ∨ t.type = FALSE ∨
        t.type = LPAREN) := by
  cases hE with
  | ident name h1 h2 h3 =>
    exact ⟨⟨IDENT, name⟩, [], by simp [exprTokens], Or.inl rfl⟩
  | int lit v h1 h2 h3 =>
    exact ⟨⟨INT, lit⟩, [], by simp [exprTokens], Or.inr (Or.inl rfl)⟩
  | btrue =>
    exact ⟨⟨TRUE, "true"⟩, [], by simp [exprTokens], Or.inr (Or.inr (Or.inl rfl))⟩
  | bfalse =>
    exact ⟨⟨FALSE, "false"⟩, [], by simp [exprTokens],
      Or.inr (Or.inr (Or.inr (Or.inl rfl)))⟩
  | pre t r hop hr =>
    exact ⟨lparenToken, t :: (exprTokens r ++ [rparenToken]),
      by simp [exprTokens, optTokens], Or.inr (Or.inr (Or.inr (Or.inr rfl)))⟩
  | inf t eL eR hop hL hR =>
    exact ⟨lparenToken, exprTokens eL ++ t :: (exprTokens eR ++ [rparenToken]),
      by simp [exprTokens, optTokens], Or.inr (Or.inr (Or.inr (Or.inr rfl)))⟩

/-- The fragment fuel bound, measured against the token count. -/
theorem cfuel_le_tokens (E : Expr) (hE : ClosedExpr E) :
    cfuel E ≤ 10 * (exprTokens E).length := by
  induction hE with
  | ident name h1 h2 h3 =>
    simp only [cfuel, exprTokens, List.length_singleton]
    omega
  | int lit v h1 h2 h3 =>
    simp only [cfuel, exprTokens, List.length_singleton]
    omega
  | btrue =>
    simp only [cfuel, exprTokens, List.length_singleton]
    omega
  | bfalse =>
    simp only [cfuel, exprTokens, List.length_singleton]
    omega
  | pre t r hop hr ih =>
    rw [cfuel_pre]
    have htokE : exprTokens (.preE t t.literal (some r)) =
        lparenToken :: t :: (exprTokens r ++ [rparenToken]) := by
      simp [exprTokens, optTokens]
    rw [htokE]
    simp only [List.length_cons, List.length_append, List.length_singleton]
    omega
  | inf t eL eR hop hL hR ihL ihR =>
    rw [cfuel_inf]
    have htokE : exprTokens (.infE t (some eL) t.literal (some eR)) =
        lparenToken :: (exprTokens eL ++ t :: (exprTokens eR ++ [rparenToken])) := by
      simp [exprTokens, optTokens]
    rw [htokE]
    simp only [List.length_cons, List.length_append, List.length_singleton]
    omega

/-- The Go renderer never panics on the closed fragment and agrees with the
total companion renderer. -/
theorem renderExpr_closed (E : Expr) (hE : ClosedExpr E) :
    renderExpr E = some (crender E) := by
  induction hE with
  | ident name h1 h2 h3 => rfl
  | int lit v h1 h2 h3 => rfl
  | btrue => rfl
  | bfalse => rfl
  | pre t r hop hr ih =>
    have hu : renderExpr (Expr.preE t t.literal (some r)) =
        (match renderExpr r with
          | none => none
          | some s => some ("(" ++ t.literal ++ s ++ ")")) := rfl
    rw [hu, ih]
    rfl
  | inf t eL eR hop hL hR ihL ihR =>
    have hu : renderExpr (Expr.infE t (some eL) t.literal (some eR)) =
        (match some eL with
          | none => none
          | some le =>
            match renderExpr le with
            | none => none
            | some ls =>
              match some eR with
              | none => none
              | some re =>
                match renderExpr re with
                | none => none
                | some rs =>
                  some ("(" ++ ls ++ " " ++ t.literal ++ " " ++ rs ++ ")")) := rfl
    rw [hu]
    dsimp only
    rw [ihL, ihR]
    rfl

/-- Appending the empty string is the identity. -/
theorem string_append_empty (s : String) : s ++ "" = s := by
  cases s with
  | mk d =>
    show String.mk (d ++ []) = String.mk d
    rw [List.append_nil]

/-- Re-parsing the token stream of a closed fragment expression yields one
expression statement holding the very same expression, with no diagnostics
and the stream fully consumed. -/
theorem parseProgram_closed (E : Expr) (hE : ClosedExpr E) :
    ∃ tok, ParseProgram (exprTokens E) =
      .ok [some (.exprS tok (some E))] ⟨[], []⟩ := by
  obtain ⟨t, ts, htok, hty⟩ := exprTokens_shape E hE
  have hne_eof : t.type ≠ EOF := by
    rcases hty with h | h | h | h | h <;> (rw [h]; decide)
  have hne_let : t.type ≠ LET := by
    rcases hty with h | h | h | h | h <;> (rw [h]; decide)
  have hne_ret : t.type ≠ RETURN := by
    rcases hty with h | h | h | h | h <;> (rw [h]; decide)
  have hne_lbrace : t.type ≠ LBRACE := by
    rcases hty with h | h | h | h | h <;> (rw [h]; decide)
  have hcf := cfuel_le_tokens E hE
  obtain ⟨K, hK⟩ : ∃ K, parserFuel (exprTokens E) = K + 5 :=
    ⟨10 * (exprTokens E).length + 25, by unfold parserFuel; omega⟩
  have h30 : 10 * (exprTokens E).length + 30 = K + 5 := hK
  refine ⟨t, ?_⟩
  unfold ParseProgram
  rw [hK, htok, programLoop_succ]
  have hcur : currentToken ⟨t :: ts, ([] : List String)⟩ = t := rfl
  rw [hcur, if_neg hne_eof]
  rw [parseStatement_succ, hcur, if_neg hne_let, if_neg hne_ret, if_neg hne_lbrace]
  rw [expressionStatementParselet_succ, hcur]
  rw [show (⟨t :: ts, []⟩ : PState) = ⟨exprTokens E ++ [], []⟩ from by
    rw [htok, List.append_nil]]
  rw [parse_closed E hE (K + 1) [] [] LOWEST (by omega)]
  rw [infLoop_stop K LOWEST (some E) [] [] (le_of_eq (getCurrentPrecedence_nil []))]
  simp only [PRes_bind_ok_eq]
  rw [if_neg (show ¬(currentToken ⟨[], ([] : List String)⟩).type = SEMICOLON by decide)]
  rw [programLoop_succ,
    if_pos (show (currentToken ⟨[], ([] : List String)⟩).type = EOF from rfl)]
  rw [List.nil_append]

/-- One iteration of the parameter loop on any current token that is
neither `EOF` nor `)`: the token becomes a parameter `Identifier` carrying
its literal text, an immediately following comma is skipped, and no
diagnostic is recorded by the iteration. -/
theorem paramLoop_step (fuel : Nat) (t : Token) (ts : List Token)
    (acc : List Identifier) (errs : List String)
    (h1 : t.type ≠ EOF) (h2 : t.type ≠ RPAREN) :
    paramLoop (fuel + 1) acc ⟨t :: ts, errs⟩ =
      paramLoop fuel (acc ++ [⟨t, t.literal⟩])
        (if (currentToken ⟨ts, errs⟩).type = COMMA
         then consumeToken COMMA ⟨ts, errs⟩ else ⟨ts, errs⟩) ∧
    (if (currentToken ⟨ts, errs⟩).type = COMMA
     then consumeToken COMMA ⟨ts, errs⟩ else ⟨ts, errs⟩).errors = errs := by
  constructor
  · rw [paramLoop_succ, if_neg (by simp [currentToken, h1, h2])]
    have e1 : (parseIdentifier ⟨t :: ts, errs⟩).1 = ⟨t, t.literal⟩ := by
      simp [parseIdentifier, currentToken]
    have e2 : (parseIdentifier ⟨t :: ts, errs⟩).2 = ⟨ts, errs⟩ := by
      simp [parseIdentifier, consumeNextToken, currentToken, h1]
    rw [e1, e2]
  · by_cases hc : (currentToken ⟨ts, errs⟩).type = COMMA
    · rw [if_pos hc, consumeToken_match_errors COMMA _ hc]
    · rw [if_neg hc]

/-- With a non-empty parameter token list, the parameter loop gives
literally identical results with and without a stray trailing comma before
the closing parenthesis. -/
theorem paramLoop_trailing_comma (ps : List Token) (hne : ps ≠ [])
    (hmem : ∀ t ∈ ps, t.type ≠ EOF ∧ t.type ≠ RPAREN) :
    ∀ (fuel : Nat) (acc : List Identifier) (rest : List Token) (errs : List String),
      paramLoop fuel acc ⟨paramTokens ps ++ commaToken :: rparenToken :: rest, errs⟩ =
      paramLoop fuel acc ⟨paramTokens ps ++ rparenToken :: rest, errs⟩ := by
  induction ps with
  | nil => exact absurd rfl hne
  | cons p ps ih =>
    intro fuel acc rest errs
    have hp := hmem p (by simp)
    rcases ps with _ | ⟨q, qs⟩
    · cases fuel with
      | zero => rfl
      | succ n =>
        have l1 :
            paramTokens [p] ++ commaToken :: rparenToken :: rest =
              p :: commaToken :: rparenToken :: rest := rfl
        have l2 : paramTokens [p] ++ rparenToken :: rest = p :: rparenToken :: rest := rfl
        rw [l1, l2,
          (paramLoop_step n p (commaToken :: rparenToken :: rest) acc errs hp.1 hp.2).1,
          (paramLoop_step n p (rparenToken :: rest) acc errs hp.1 hp.2).1]
        rfl
    · cases fuel with
      | zero => rfl
      | succ n =>
        have l1 :
            paramTokens (p :: q :: qs) ++ commaToken :: rparenToken :: rest =
              p :: commaToken :: (paramTokens (q :: qs) ++ commaToken :: rparenToken :: rest) := by
          simp [paramTokens]
        have l2 :
            paramTokens (p :: q :: qs) ++ rparenToken :: rest =
              p :: commaToken :: (paramTokens (q :: qs) ++ rparenToken :: rest) := by
          simp [paramTokens]
        rw [l1, l2,
          (paramLoop_step n p _ acc errs hp.1 hp.2).1,
          (paramLoop_step n p _ acc errs hp.1 hp.2).1]
        have hcur :
            ∀ (xs : List Token),
              (currentToken ⟨commaToken :: xs, errs⟩).type = COMMA := fun xs => rfl
        rw [if_pos (hcur _), if_pos (hcur _)]
        have hcons :
            ∀ (xs : List Token),
              consumeToken COMMA ⟨commaToken :: xs, errs⟩ = ⟨xs, errs⟩ := fun xs => rfl
        rw [hcons, hcons]
        exact ih (by simp) (fun t ht => hmem t (by simp [ht])) n (acc ++ [⟨p, p.literal⟩]) rest errs

/-- Monotonicity and consumption for all parser routines: a successful run
never lengthens the remaining token stream, and each routine consumes at
least one token under its dispatch condition. -/
theorem parser_shape : ∀ fuel : Nat,
    (∀ st s st', parseStatement fuel st = .ok s st' →
      st'.toks.length ≤ st.toks.length ∧
        ((currentToken st).type ≠ EOF → st'.toks.length < st.toks.length)) ∧
    (∀ st s st', letStatementParselet fuel st = .ok s st' →
      st'.toks.length ≤ st.toks.length ∧
        ((currentToken st).type = LET → st'.toks.length < st.toks.length)) ∧
    (∀ st s st', returnStatementParselet fuel st = .ok s st' →
      st'.toks.length ≤ st.toks.length ∧
        ((currentToken st).type = RETURN → st'.toks.length < st.toks.length)) ∧
    (∀ st s st', expressionStatementParselet fuel st = .ok s st' →
      st'.toks.length ≤ st.toks.length ∧
        ((currentToken st).type ≠ EOF → st'.toks.length < st.toks.length)) ∧
    (∀ st b st', blockStatementParselet fuel st = .ok b st' →
      st'.toks.length ≤ st.toks.length ∧
        ((currentToken st).type = LBRACE → st'.toks.length < st.toks.length)) ∧
    (∀ acc st s st', blockLoop fuel acc st = .ok s st' →
      st'.toks.length ≤ st.toks.length) ∧
    (∀ prec st e st', parseExpression fuel prec st = .ok e st' →
      st'.toks.length ≤ st.toks.length ∧
        ((currentToken st).type ≠ EOF → st'.toks.length < st.toks.length)) ∧
    (∀ prec left st e st', infLoop fuel prec left st = .ok e st' →
      st'.toks.length ≤ st.toks.length) ∧
    (∀ left st e st', parseInfExpression fuel left st = .ok e st' →
      st'.toks.length ≤ st.toks.length ∧
        ((currentToken st).type ≠ EOF → st'.toks.length < st.toks.length)) ∧
    (∀ st e st', parsePreOperator fuel st = .ok e st' →
      st'.toks.length ≤ st.toks.length ∧
        ((currentToken st).type ≠ EOF → st'.toks.length < st.toks.length)) ∧
    (∀ st e st', parseGroupedExpression fuel st = .ok e st' →
      st'.toks.length ≤ st.toks.length ∧
        ((currentToken st).type ≠ EOF → st'.toks.length < st.toks.length)) ∧
    (∀ st e st', parseIfExpression fuel st = .ok e st' →
      st'.toks.length ≤ st.toks.length ∧
        ((currentToken st).type ≠ EOF → st'.toks.length < st.toks.length)) ∧
    (∀ st e st', parseFunctionExpression fuel st = .ok e st' →
      st'.toks.length ≤ st.toks.length ∧
        ((currentToken st).type ≠ EOF → st'.toks.length < st.toks.length)) ∧
    (∀ acc st ps st', paramLoop fuel acc st = .ok ps st' →
      st'.toks.length ≤ st.toks.length) ∧
    (∀ acc st s st', programLoop fuel acc st = .ok s st' →
      st'.toks.length ≤ st.toks.length) := by
  intro fuel
  induction fuel with
  | zero =>
    refine ⟨?_, ?_, ?_, ?_, ?_, ?_, ?_, ?_, ?_, ?_, ?_, ?_, ?_, ?_, ?_⟩ <;>
      (intros; rename_i h; exact PRes.noConfusion h)
  | succ n ih =>
    obtain ⟨ihStmt, ihLet, ihRet, ihES, ihBlk, ihBL, ihPE, ihIL, ihInf, ihPre,
      ihGrp, ihIf, ihFn, ihPar, ihProg⟩ := ih
    refine ⟨?_, ?_, ?_, ?_, ?_, ?_, ?_, ?_, ?_, ?_, ?_, ?_, ?_, ?_, ?_⟩
    · intro st s st' h
      rw [parseStatement_succ] at h
      split_ifs at h with h1 h2 h3
      · exact ⟨(ihLet st s st' h).1, fun _ => (ihLet st s st' h).2 h1⟩
      · exact ⟨(ihRet st s st' h).1, fun _ => (ihRet st s st' h).2 h2⟩
      · obtain ⟨b, st1, hb, hok⟩ := PRes_bind_ok h
        injection hok with _ h2eq
        subst h2eq
        exact ⟨(ihBlk st b _ hb).1, fun _ => (ihBlk st b _ hb).2 h3⟩
      · exact ihES st s st' h
    · intro st s st' h
      rw [letStatementParselet_succ] at h
      split_ifs at h with h1
      · injection h with _ h2eq
        subst h2eq
        exact ⟨le_refl _, fun hl => absurd hl h1⟩
      · have hl : (currentToken st).type = LET := not_not.mp h1
        have hne : (currentToken st).type ≠ EOF := by rw [hl]; decide
        obtain ⟨v, st2, hpe, hok⟩ := PRes_bind_ok h
        injection hok with _ h2eq
        subst h2eq
        have b1 := consumeToken_toks_lt LET st hne
        have b2 := consumeToken_toks_le IDENT (consumeToken LET st)
        have b3 := consumeToken_toks_le ASSIGN (consumeToken IDENT (consumeToken LET st))
        have b4 := (ihPE LOWEST _ v st2 hpe).1
        have b5 := consumeToken_toks_le SEMICOLON st2
        exact ⟨by omega, fun _ => by omega⟩
    · intro st s st' h
      rw [returnStatementParselet_succ] at h
      split_ifs at h with h1
      · injection h with _ h2eq
        subst h2eq
        exact ⟨le_refl _, fun hl => absurd hl h1⟩
      · have hl : (currentToken st).type = RETURN := not_not.mp h1
        have hne : (currentToken st).type ≠ EOF := by rw [hl]; decide
        obtain ⟨v, st2, hpe, hok⟩ := PRes_bind_ok h
        injection hok with _ h2eq
        subst h2eq
        have b1 := consumeToken_toks_lt RETURN st hne
        have b2 := (ihPE LOWEST _ v st2 hpe).1
        have b3 := consumeToken_toks_le SEMICOLON st2
        exact ⟨by omega, fun _ => by omega⟩
    · intro st s st' h
      rw [expressionStatementParselet_succ] at h
      obtain ⟨e, st2, hpe, hok⟩ := PRes_bind_ok h
      injection hok with _ h2eq
      subst h2eq
      have b1 := (ihPE LOWEST st e st2 hpe).1
      have b2 : (if (currentToken st2).type = SEMICOLON
          then consumeToken SEMICOLON st2 else st2).toks.length ≤ st2.toks.length := by
        split_ifs
        · exact consumeToken_toks_le _ _
        · exact le_refl _
      refine ⟨by omega, fun hne => ?_⟩
      have b3 := (ihPE LOWEST st e st2 hpe).2 hne
      omega
    · intro st b st' h
      rw [blockStatementParselet_succ] at h
      split_ifs at h with h1
      · injection h with _ h2eq
        subst h2eq
        exact ⟨le_refl _, fun hl => absurd hl h1⟩
      · have hl : (currentToken st).type = LBRACE := not_not.mp h1
        have hne : (currentToken st).type ≠ EOF := by rw [hl]; decide
        obtain ⟨stmts, st2, hbl, hok⟩ := PRes_bind_ok h
        injection hok with _ h2eq
        subst h2eq
        have b1 := consumeToken_toks_lt LBRACE st hne
        have b2 := ihBL [] (consumeToken LBRACE st) stmts st2 hbl
        have b3 := consumeToken_toks_le RBRACE st2
        exact ⟨by omega, fun _ => by omega⟩
    · intro acc st s st' h
      rw [blockLoop_succ] at h
      split_ifs at h with h1
      · injection h with _ h2eq
        subst h2eq
        exact le_refl _
      · obtain ⟨s1, st2, hps, hrec⟩ := PRes_bind_ok h
        have b1 := (ihStmt st s1 st2 hps).1
        have b2 := ihBL (acc ++ [s1]) st2 s st' hrec
        omega
    · intro prec st e st' h
      rw [parseExpression_succ] at h
      split_ifs at h with h1 h2 h3 h4 h5 h6 h7
      · have hne : (currentToken st).type ≠ EOF := by rw [h1]; decide
        rw [parseIdentifier_snd] at h
        have b1 := ihIL prec _ _ e st' h
        have b2 := consumeNextToken_toks_lt st hne
        exact ⟨by omega, fun _ => by omega⟩
      · have hne : (currentToken st).type ≠ EOF := by rw [h2]; decide
        have b1 := ihIL prec _ _ e st' h
        have b2 : (parseIntegerLiteral st).2.toks.length < st.toks.length := by
          rw [parseIntegerLiteral_toks]
          exact consumeNextToken_toks_lt st hne
        exact ⟨by omega, fun _ => by omega⟩
      · have hne : (currentToken st).type ≠ EOF := by
          rcases h3 with hx | hx <;> (rw [hx]; decide)
        rw [parseBooleanLiteral_snd] at h
        have b1 := ihIL prec _ _ e st' h
        have b2 := consumeNextToken_toks_lt st hne
        exact ⟨by omega, fun _ => by omega⟩
      · have hne : (currentToken st).type ≠ EOF := by
          rcases h4 with hx | hx <;> (rw [hx]; decide)
        obtain ⟨e1, st1, hp, hil⟩ := PRes_bind_ok h
        have b1 := (ihPre st e1 st1 hp).2 hne
        have b2 := ihIL prec e1 st1 e st' hil
        exact ⟨by omega, fun _ => by omega⟩
      · have hne : (currentToken st).type ≠ EOF := by rw [h5]; decide
        obtain ⟨e1, st1, hp, hil⟩ := PRes_bind_ok h
        have b1 := (ihGrp st e1 st1 hp).2 hne
        have b2 := ihIL prec e1 st1 e st' hil
        exact ⟨by omega, fun _ => by omega⟩
      · have hne : (currentToken st).type ≠ EOF := by rw [h6]; decide
        obtain ⟨e1, st1, hp, hil⟩ := PRes_bind_ok h
        have b1 := (ihIf st e1 st1 hp).2 hne
        have b2 := ihIL prec e1 st1 e st' hil
        exact ⟨by omega, fun _ => by omega⟩
      · have hne : (currentToken st).type ≠ EOF := by rw [h7]; decide
        obtain ⟨e1, st1, hp, hil⟩ := PRes_bind_ok h
        have b1 := (ihFn st e1 st1 hp).2 hne
        have b2 := ihIL prec e1 st1 e st' hil
        exact ⟨by omega, fun _ => by omega⟩
      · injection h with _ h2eq
        subst h2eq
        constructor
        · rw [consumeNextToken_addError_toks]
          exact consumeNextToken_toks_le st
        · intro hne
          rw [consumeNextToken_addError_toks]
          exact consumeNextToken_toks_lt st hne
    · intro prec left st e st' h
      rw [infLoop_succ] at h
      split_ifs at h with h1 h2 h3
      · injection h with _ h2eq
        subst h2eq
        exact le_refl _
      · obtain ⟨e1, st1, hinf, hrec⟩ := PRes_bind_ok h
        have b1 := (ihInf left st e1 st1 hinf).1
        have b2 := ihIL prec e1 st1 e st' hrec
        omega
      · injection h with _ h2eq
        subst h2eq
        exact le_refl _
      · injection h with _ h2eq
        subst h2eq
        exact le_refl _
    · intro left st e st' h
      rw [parseInfExpression_succ] at h
      obtain ⟨r, st2, hpe, hok⟩ := PRes_bind_ok h
      injection hok with _ h2eq
      subst h2eq
      have b1 := (ihPE (getCurrentPrecedence st) (consumeNextToken st) r st2 hpe).1
      have b2 := consumeNextToken_toks_le st
      refine ⟨by omega, fun hne => ?_⟩
      have b3 := consumeNextToken_toks_lt st hne
      omega
    · intro st e st' h
      rw [parsePreOperator_succ] at h
      obtain ⟨r, st2, hpe, hok⟩ := PRes_bind_ok h
      injection hok with _ h2eq
      subst h2eq
      have b1 := (ihPE PREC_UNARY (consumeNextToken st) r st2 hpe).1
      have b2 := consumeNextToken_toks_le st
      refine ⟨by omega, fun hne => ?_⟩
      have b3 := consumeNextToken_toks_lt st hne
      omega
    · intro st e st' h
      rw [parseGroupedExpression_succ] at h
      obtain ⟨e1, st2, hpe, hok⟩ := PRes_bind_ok h
      injection hok with _ h2eq
      subst h2eq
      have b1 := (ihPE LOWEST (consumeToken LPAREN st) e1 st2 hpe).1
      have b2 := consumeToken_toks_le LPAREN st
      have b3 := consumeToken_toks_le RPAREN st2
      refine ⟨by omega, fun hne => ?_⟩
      have b4 := consumeToken_toks_lt LPAREN st hne
      omega
    · intro st e st' h
      rw [parseIfExpression_succ] at h
      obtain ⟨c, st2, hpe, h⟩ := PRes_bind_ok h
      obtain ⟨consq, st3, hbp, h⟩ := PRes_bind_ok h
      have b1 := (ihPE LOWEST _ c st2 hpe).1
      have b2 := consumeToken_toks_le IF st
      have b3 := consumeToken_toks_le LPAREN (consumeToken IF st)
      have b4 := consumeToken_toks_le RPAREN st2
      have b5 := (ihBlk (consumeToken RPAREN st2) consq st3 hbp).1
      cases consq with
      | none => exact PRes.noConfusion h
      | some consequence =>
        split_ifs at h with helse
        · injection h with _ h2eq
          subst h2eq
          refine ⟨by omega, fun hne => ?_⟩
          have b6 := consumeToken_toks_lt IF st hne
          omega
        · obtain ⟨alt, st4, hbp2, h⟩ := PRes_bind_ok h
          have b6 := consumeToken_toks_le ELSE st3
          have b7 := (ihBlk (consumeToken ELSE st3) alt st4 hbp2).1
          cases alt with
          | none => exact PRes.noConfusion h
          | some alternative =>
            injection h with _ h2eq
            subst h2eq
            refine ⟨by omega, fun hne => ?_⟩
            have b8 := consumeToken_toks_lt IF st hne
            omega
    · intro st e st' h
      rw [parseFunctionExpression_succ] at h
      obtain ⟨ps, st2, hpar, h⟩ := PRes_bind_ok h
      obtain ⟨b, st3, hbp, h⟩ := PRes_bind_ok h
      have b1 := ihPar [] _ ps st2 hpar
      have b2 := consumeToken_toks_le FUNCTION st
      have b3 := consumeToken_toks_le LPAREN (consumeToken FUNCTION st)
      have b4 := consumeToken_toks_le RPAREN st2
      have b5 := (ihBlk (consumeToken RPAREN st2) b st3 hbp).1
      cases b with
      | none => exact PRes.noConfusion h
      | some body =>
        injection h with _ h2eq
        subst h2eq
        refine ⟨by omega, fun hne => ?_⟩
        have b6 := consumeToken_toks_lt FUNCTION st hne
        omega
    · intro acc st ps st' h
      rw [paramLoop_succ, parseIdentifier_snd] at h
      split_ifs at h with h1 h2
      · injection h with _ h2eq
        subst h2eq
        exact le_refl _
      · have hne : (currentToken st).type ≠ EOF := fun hx => h1 (Or.inl hx)
        have b1 := ihPar _ _ ps st' h
        have b2 := consumeToken_toks_le COMMA (consumeNextToken st)
        have b3 := consumeNextToken_toks_lt st hne
        omega
      · have hne : (currentToken st).type ≠ EOF := fun hx => h1 (Or.inl hx)
        have b1 := ihPar _ _ ps st' h
        have b3 := consumeNextToken_toks_lt st hne
        omega
    · intro acc st s st' h
      rw [programLoop_succ] at h
      split_ifs at h with h1
      · injection h with _ h2eq
        subst h2eq
        exact le_refl _
      · obtain ⟨s1, st2, hps, hrec⟩ := PRes_bind_ok h
        have b1 := (ihStmt st s1 st2 hps).1
        have b2 := ihProg (acc ++ [s1]) st2 s st' hrec
        omega

/-- Fuel adequacy: with fuel at least linear in the remaining stream
length (coefficient `10` with the stated offsets), no parser routine ever
runs out of fuel — this is the termination argument for the Go parser's
loops and recursion. -/
theorem parser_adequacy : ∀ fuel : Nat,
    (∀ st, 10 * st.toks.length + 18 ≤ fuel → parseStatement fuel st ≠ .fuelOut) ∧
    (∀ st, 10 * st.toks.length + 8 ≤ fuel → letStatementParselet fuel st ≠ .fuelOut) ∧
    (∀ st, 10 * st.toks.length + 8 ≤ fuel → returnStatementParselet fuel st ≠ .fuelOut) ∧
    (∀ st, 10 * st.toks.length + 15 ≤ fuel → expressionStatementParselet fuel st ≠ .fuelOut) ∧
    (∀ st, 10 * st.toks.length + 16 ≤ fuel → blockStatementParselet fuel st ≠ .fuelOut) ∧
    (∀ acc st, 10 * st.toks.length + 19 ≤ fuel → blockLoop fuel acc st ≠ .fuelOut) ∧
    (∀ prec st, 10 * st.toks.length + 14 ≤ fuel → parseExpression fuel prec st ≠ .fuelOut) ∧
    (∀ prec left st, 10 * st.toks.length + 13 ≤ fuel → infLoop fuel prec left st ≠ .fuelOut) ∧
    (∀ left st, (currentToken st).type ≠ EOF → 10 * st.toks.length + 12 ≤ fuel →
      parseInfExpression fuel left st ≠ .fuelOut) ∧
    (∀ st, (currentToken st).type ≠ EOF → 10 * st.toks.length + 8 ≤ fuel →
      parsePreOperator fuel st ≠ .fuelOut) ∧
    (∀ st, (currentToken st).type ≠ EOF → 10 * st.toks.length + 8 ≤ fuel →
      parseGroupedExpression fuel st ≠ .fuelOut) ∧
    (∀ st, (currentToken st).type ≠ EOF → 10 * st.toks.length + 8 ≤ fuel →
      parseIfExpression fuel st ≠ .fuelOut) ∧
    (∀ st, (currentToken st).type ≠ EOF → 10 * st.toks.length + 8 ≤ fuel →
      parseFunctionExpression fuel st ≠ .fuelOut) ∧
    (∀ acc st, 10 * st.toks.length + 2 ≤ fuel → paramLoop fuel acc st ≠ .fuelOut) ∧
    (∀ acc st, 10 * st.toks.length + 19 ≤ fuel → programLoop fuel acc st ≠ .fuelOut) := by
  intro fuel
  induction fuel with
  | zero =>
    refine ⟨?_, ?_, ?_, ?_, ?_, ?_, ?_, ?_, ?_, ?_, ?_, ?_, ?_, ?_, ?_⟩ <;>
      (intros; rename_i hb; exact absurd hb (by omega))
  | succ n ih =>
    obtain ⟨aStmt, aLet, aRet, aES, aBlk, aBL, aPE, aIL, aInf, aPre,
      aGrp, aIf, aFn, aPar, aProg⟩ := ih
    obtain ⟨sStmt, sLet, sRet, sES, sBlk, sBL, sPE, sIL, sInf, sPre,
      sGrp, sIf, sFn, sPar, sProg⟩ := parser_shape n
    refine ⟨?_, ?_, ?_, ?_, ?_, ?_, ?_, ?_, ?_, ?_, ?_, ?_, ?_, ?_, ?_⟩
    · intro st hb
      rw [parseStatement_succ]
      split_ifs with h1 h2 h3
      · exact aLet st (by omega)
      · exact aRet st (by omega)
      · apply PRes_bind_ne_fuelOut (aBlk st (by omega))
        intro b st2 _
        exact fun hf => PRes.noConfusion hf
      · exact aES st (by omega)
    · intro st hb
      rw [letStatementParselet_succ]
      split_ifs with h1
      · exact fun hf => PRes.noConfusion hf
      · have hl : (currentToken st).type = LET := not_not.mp h1
        have hne : (currentToken st).type ≠ EOF := by rw [hl]; decide
        have d1 := consumeToken_toks_lt LET st hne
        have d2 := consumeToken_toks_le IDENT (consumeToken LET st)
        have d3 := consumeToken_toks_le ASSIGN (consumeToken IDENT (consumeToken LET st))
        apply PRes_bind_ne_fuelOut (aPE LOWEST _ (by omega))
        intro v st2 _
        exact fun hf => PRes.noConfusion hf
    · intro st hb
      rw [returnStatementParselet_succ]
      split_ifs with h1
      · exact fun hf => PRes.noConfusion hf
      · have hl : (currentToken st).type = RETURN := not_not.mp h1
        have hne : (currentToken st).type ≠ EOF := by rw [hl]; decide
        have d1 := consumeToken_toks_lt RETURN st hne
        apply PRes_bind_ne_fuelOut (aPE LOWEST _ (by omega))
        intro v st2 _
        exact fun hf => PRes.noConfusion hf
    · intro st hb
      rw [expressionStatementParselet_succ]
      apply PRes_bind_ne_fuelOut (aPE LOWEST st (by omega))
      intro e st2 _
      exact fun hf => PRes.noConfusion hf
    · intro st hb
      rw [blockStatementParselet_succ]
      split_ifs with h1
      · exact fun hf => PRes.noConfusion hf
      · have hl : (currentToken st).type = LBRACE := not_not.mp h1
        have hne : (currentToken st).type ≠ EOF := by rw [hl]; decide
        have d1 := consumeToken_toks_lt LBRACE st hne
        apply PRes_bind_ne_fuelOut (aBL [] _ (by omega))
        intro stmts st2 _
        exact fun hf => PRes.noConfusion hf
    · intro acc st hb
      rw [blockLoop_succ]
      split_ifs with h1
      · exact fun hf => PRes.noConfusion hf
      · have hne : (currentToken st).type ≠ EOF := fun hx => h1 (Or.inl hx)
        apply PRes_bind_ne_fuelOut (aStmt st (by omega))
        intro s1 st2 hps
        have d1 := (sStmt st s1 st2 hps).2 hne
        exact aBL (acc ++ [s1]) st2 (by omega)
    · intro prec st hb
      rw [parseExpression_succ]
      split_ifs with h1 h2 h3 h4 h5 h6 h7
      · have hne : (currentToken st).type ≠ EOF := by rw [h1]; decide
        rw [parseIdentifier_snd]
        have d1 := consumeNextToken_toks_lt st hne
        exact aIL prec _ _ (by omega)
      · have hne : (currentToken st).type ≠ EOF := by rw [h2]; decide
        have d1 : (parseIntegerLiteral st).2.toks.length < st.toks.length := by
          rw [parseIntegerLiteral_toks]
          exact consumeNextToken_toks_lt st hne
        exact aIL prec _ _ (by omega)
      · have hne : (currentToken st).type ≠ EOF := by
          rcases h3 with hx | hx <;> (rw [hx]; decide)
        rw [parseBooleanLiteral_snd]
        have d1 := consumeNextToken_toks_lt st hne
        exact aIL prec _ _ (by omega)
      · have hne : (currentToken st).type ≠ EOF := by
          rcases h4 with hx | hx <;> (rw [hx]; decide)
        apply PRes_bind_ne_fuelOut (aPre st hne (by omega))
        intro e1 st1 hp
        have d1 := (sPre st e1 st1 hp).2 hne
        exact aIL prec e1 st1 (by omega)
      · have hne : (currentToken st).type ≠ EOF := by rw [h5]; decide
        apply PRes_bind_ne_fuelOut (aGrp st hne (by omega))
        intro e1 st1 hp
        have d1 := (sGrp st e1 st1 hp).2 hne
        exact aIL prec e1 st1 (by omega)
      · have hne : (currentToken st).type ≠ EOF := by rw [h6]; decide
        apply PRes_bind_ne_fuelOut (aIf st hne (by omega))
        intro e1 st1 hp
        have d1 := (sIf st e1 st1 hp).2 hne
        exact aIL prec e1 st1 (by omega)
      · have hne : (currentToken st).type ≠ EOF := by rw [h7]; decide
        apply PRes_bind_ne_fuelOut (aFn st hne (by omega))
        intro e1 st1 hp
        have d1 := (sFn st e1 st1 hp).2 hne
        exact aIL prec e1 st1 (by omega)
      · exact fun hf => PRes.noConfusion hf
    · intro prec left st hb
      rw [infLoop_succ]
      split_ifs with h1 h2 h3
      · exact fun hf => PRes.noConfusion hf
      · have hne : (currentToken st).type ≠ EOF := by
          rcases h3 with hx | hx | hx | hx | hx | hx | hx | hx <;> (rw [hx]; decide)
        apply PRes_bind_ne_fuelOut (aInf left st hne (by omega))
        intro e1 st1 hinf
        have d1 := (sInf left st e1 st1 hinf).2 hne
        exact aIL prec e1 st1 (by omega)
      · exact fun hf => PRes.noConfusion hf
      · exact fun hf => PRes.noConfusion hf
    · intro left st hne hb
      rw [parseInfExpression_succ]
      have d1 := consumeNextToken_toks_lt st hne
      apply PRes_bind_ne_fuelOut (aPE (getCurrentPrecedence st) _ (by omega))
      intro r st2 _
      exact fun hf => PRes.noConfusion hf
    · intro st hne hb
      rw [parsePreOperator_succ]
      have d1 := consumeNextToken_toks_lt st hne
      apply PRes_bind_ne_fuelOut (aPE PREC_UNARY _ (by omega))
      intro r st2 _
      exact fun hf => PRes.noConfusion hf
    · intro st hne hb
      rw [parseGroupedExpression_succ]
      have d1 := consumeToken_toks_lt LPAREN st hne
      apply PRes_bind_ne_fuelOut (aPE LOWEST _ (by omega))
      intro e1 st2 _
      exact fun hf => PRes.noConfusion hf
    · intro st hne hb
      rw [parseIfExpression_succ]
      have d1 := consumeToken_toks_lt IF st hne
      have d2 := consumeToken_toks_le LPAREN (consumeToken IF st)
      apply PRes_bind_ne_fuelOut (aPE LOWEST _ (by omega))
      intro c st2 hpe
      have d3 := (sPE LOWEST _ c st2 hpe).1
      have d4 := consumeToken_toks_le RPAREN st2
      apply PRes_bind_ne_fuelOut (aBlk _ (by omega))
      intro consq st3 hbp
      cases consq with
      | none => exact fun hf => PRes.noConfusion hf
      | some consequence =>
        split_ifs with helse
        · exact fun hf => PRes.noConfusion hf
        · have d5 := (sBlk _ (some consequence) st3 hbp).1
          have d6 := consumeToken_toks_le ELSE st3
          apply PRes_bind_ne_fuelOut (aBlk _ (by omega))
          intro alt st4 _
          cases alt with
          | none => exact fun hf => PRes.noConfusion hf
          | some alternative => exact fun hf => PRes.noConfusion hf
    · intro st hne hb
      rw [parseFunctionExpression_succ]
      have d1 := consumeToken_toks_lt FUNCTION st hne
      have d2 := consumeToken_toks_le LPAREN (consumeToken FUNCTION st)
      apply PRes_bind_ne_fuelOut (aPar [] _ (by omega))
      intro ps st2 hpar
      have d3 := sPar [] _ ps st2 hpar
      have d4 := consumeToken_toks_le RPAREN st2
      apply PRes_bind_ne_fuelOut (aBlk _ (by omega))
      intro b st3 _
      cases b with
      | none => exact fun hf => PRes.noConfusion hf
      | some body => exact fun hf => PRes.noConfusion hf
    · intro acc st hb
      rw [paramLoop_succ, parseIdentifier_snd]
      split_ifs with h1 h2
      · exact fun hf => PRes.noConfusion hf
      · have hne : (currentToken st).type ≠ EOF := fun hx => h1 (Or.inl hx)
        have d1 := consumeNextToken_toks_lt st hne
        have d2 := consumeToken_toks_le COMMA (consumeNextToken st)
        exact aPar _ _ (by omega)
      · have hne : (currentToken st).type ≠ EOF := fun hx => h1 (Or.inl hx)
        have d1 := consumeNextToken_toks_lt st hne
        exact aPar _ _ (by omega)
    · intro acc st hb
      rw [programLoop_succ]
      split_ifs with h1
      · exact fun hf => PRes.noConfusion hf
      · have hne : (currentToken st).type ≠ EOF := h1
        apply PRes_bind_ne_fuelOut (aStmt st (by omega))
        intro s1 st2 hps
        have d1 := (sStmt st s1 st2 hps).2 hne
        exact aProg (acc ++ [s1]) st2 (by omega)

/-- `stmtsHaveCall` distributes over append. -/
theorem stmtsHaveCall_append (xs ys : List (Option Stmt)) :
    stmtsHaveCall (xs ++ ys) = (stmtsHaveCall xs || stmtsHaveCall ys) := by
  induction xs with
  | nil => rfl
  | cons x xs ih => cases x <;> simp [stmtsHaveCall, ih, Bool.or_assoc]

/-- `stmtsHaveCall` on a one-element list. -/
theorem stmtsHaveCall_singleton (s : Option Stmt) :
    stmtsHaveCall [s] = optStmtHasCall s := by
  cases s <;> simp [stmtsHaveCall, optStmtHasCall]

/-- `parseIntegerLiteral` never produces a call node. -/
theorem parseIntegerLiteral_no_call (st : PState) :
    optExprHasCall (parseIntegerLiteral st).1 = false := by
  unfold parseIntegerLiteral
  cases hval : goParseInt (currentToken st).literal <;>
    simp [hval, optExprHasCall, exprHasCall]

/-- No parser routine ever constructs a `CallExpression` node: the
registration tables in `parser.New` contain no call parser, so every AST
the parser can produce is call-free. -/
theorem parser_no_call : ∀ fuel : Nat,
    (∀ st s st', parseStatement fuel st = .ok s st' → optStmtHasCall s = false) ∧
    (∀ st s st', letStatementParselet fuel st = .ok s st' → optStmtHasCall s = false) ∧
    (∀ st s st', returnStatementParselet fuel st = .ok s st' → optStmtHasCall s = false) ∧
    (∀ st s st', expressionStatementParselet fuel st = .ok s st' → optStmtHasCall s = false) ∧
    (∀ st b st', blockStatementParselet fuel st = .ok b st' → optBlockHasCall b = false) ∧
    (∀ acc st s st', stmtsHaveCall acc = false → blockLoop fuel acc st = .ok s st' →
      stmtsHaveCall s = false) ∧
    (∀ prec st e st', parseExpression fuel prec st = .ok e st' → optExprHasCall e = false) ∧
    (∀ prec left st e st', optExprHasCall left = false → infLoop fuel prec left st = .ok e st' →
      optExprHasCall e = false) ∧
    (∀ left st e st', optExprHasCall left = false → parseInfExpression fuel left st = .ok e st' →
      optExprHasCall e = false) ∧
    (∀ st e st', parsePreOperator fuel st = .ok e st' → optExprHasCall e = false) ∧
    (∀ st e st', parseGroupedExpression fuel st = .ok e st' → optExprHasCall e = false) ∧
    (∀ st e st', parseIfExpression fuel st = .ok e st' → optExprHasCall e = false) ∧
    (∀ st e st', parseFunctionExpression fuel st = .ok e st' → optExprHasCall e = false) ∧
    (∀ acc st s st', stmtsHaveCall acc = false → programLoop fuel acc st = .ok s st' →
      stmtsHaveCall s = false) := by
  intro fuel
  induction fuel with
  | zero =>
    refine ⟨?_, ?_, ?_, ?_, ?_, ?_, ?_, ?_, ?_, ?_, ?_, ?_, ?_, ?_⟩ <;>
      (intros; rename_i h; exact PRes.noConfusion h)
  | succ n ih =>
    obtain ⟨ihStmt, ihLet, ihRet, ihES, ihBlk, ihBL, ihPE, ihIL, ihInf, ihPre,
      ihGrp, ihIf, ihFn, ihProg⟩ := ih
    refine ⟨?_, ?_, ?_, ?_, ?_, ?_, ?_, ?_, ?_, ?_, ?_, ?_, ?_, ?_⟩
    · intro st s st' h
      rw [parseStatement_succ] at h
      split_ifs at h with h1 h2 h3
      · exact ihLet st s st' h
      · exact ihRet st s st' h
      · obtain ⟨b, st1, hb, hok⟩ := PRes_bind_ok h
        injection hok with h1eq h2eq
        subst h1eq
        have hbc := ihBlk st b st1 hb
        cases b with
        | none => rfl
        | some blk => simpa [optStmtHasCall, stmtHasCall, optBlockHasCall] using hbc
      · exact ihES st s st' h
    · intro st s st' h
      rw [letStatementParselet_succ] at h
      split_ifs at h with h1
      · injection h with h1eq h2eq
        subst h1eq
        rfl
      · obtain ⟨v, st2, hpe, hok⟩ := PRes_bind_ok h
        injection hok with h1eq h2eq
        subst h1eq
        have hv := ihPE LOWEST _ v st2 hpe
        simpa [optStmtHasCall, stmtHasCall] using hv
    · intro st s st' h
      rw [returnStatementParselet_succ] at h
      split_ifs at h with h1
      · injection h with h1eq h2eq
        subst h1eq
        rfl
      · obtain ⟨v, st2, hpe, hok⟩ := PRes_bind_ok h
        injection hok with h1eq h2eq
        subst h1eq
        have hv := ihPE LOWEST _ v st2 hpe
        simpa [optStmtHasCall, stmtHasCall] using hv
    · intro st s st' h
      rw [expressionStatementParselet_succ] at h
      obtain ⟨e, st2, hpe, hok⟩ := PRes_bind_ok h
      injection hok with h1eq h2eq
      subst h1eq
      have he := ihPE LOWEST st e st2 hpe
      simpa [optStmtHasCall, stmtHasCall] using he
    · intro st b st' h
      rw [blockStatementParselet_succ] at h
      split_ifs at h with h1
      · injection h with h1eq h2eq
        subst h1eq
        rfl
      · obtain ⟨stmts, st2, hbl, hok⟩ := PRes_bind_ok h
        injection hok with h1eq h2eq
        subst h1eq
        have hs := ihBL [] _ stmts st2 rfl hbl
        simpa [optBlockHasCall, blockHasCall] using hs
    · intro acc st s st' hacc h
      rw [blockLoop_succ] at h
      split_ifs at h with h1
      · injection h with h1eq h2eq
        subst h1eq
        exact hacc
      · obtain ⟨s1, st2, hps, hrec⟩ := PRes_bind_ok h
        have hs1 := ihStmt st s1 st2 hps
        refine ihBL (acc ++ [s1]) st2 s st' ?_ hrec
        simp [stmtsHaveCall_append, stmtsHaveCall_singleton, hacc, hs1]
    · intro prec st e st' h
      rw [parseExpression_succ] at h
      split_ifs at h with h1 h2 h3 h4 h5 h6 h7
      · refine ihIL prec _ _ e st' ?_ h
        rfl
      · exact ihIL prec _ _ e st' (parseIntegerLiteral_no_call st) h
      · refine ihIL prec _ _ e st' ?_ h
        rfl
      · obtain ⟨e1, st1, hp, hil⟩ := PRes_bind_ok h
        exact ihIL prec e1 st1 e st' (ihPre st e1 st1 hp) hil
      · obtain ⟨e1, st1, hp, hil⟩ := PRes_bind_ok h
        exact ihIL prec e1 st1 e st' (ihGrp st e1 st1 hp) hil
      · obtain ⟨e1, st1, hp, hil⟩ := PRes_bind_ok h
        exact ihIL prec e1 st1 e st' (ihIf st e1 st1 hp) hil
      · obtain ⟨e1, st1, hp, hil⟩ := PRes_bind_ok h
        exact ihIL prec e1 st1 e st' (ihFn st e1 st1 hp) hil
      · injection h with h1eq h2eq
        subst h1eq
        rfl
    · intro prec left st e st' hleft h
      rw [infLoop_succ] at h
      split_ifs at h with h1 h2 h3
      · injection h with h1eq h2eq
        subst h1eq
        exact hleft
      · obtain ⟨e1, st1, hinf, hrec⟩ := PRes_bind_ok h
        exact ihIL prec e1 st1 e st' (ihInf left st e1 st1 hleft hinf) hrec
      · injection h with h1eq h2eq
        subst h1eq
        exact hleft
      · injection h with h1eq h2eq
        subst h1eq
        exact hleft
    · intro left st e st' hleft h
      rw [parseInfExpression_succ] at h
      obtain ⟨r, st2, hpe, hok⟩ := PRes_bind_ok h
      injection hok with h1eq h2eq
      subst h1eq
      have hr := ihPE (getCurrentPrecedence st) _ r st2 hpe
      simp [optExprHasCall, exprHasCall, hleft, hr]
    · intro st e st' h
      rw [parsePreOperator_succ] at h
      obtain ⟨r, st2, hpe, hok⟩ := PRes_bind_ok h
      injection hok with h1eq h2eq
      subst h1eq
      have hr := ihPE PREC_UNARY _ r st2 hpe
      simpa [optExprHasCall, exprHasCall] using hr
    · intro st e st' h
      rw [parseGroupedExpression_succ] at h
      obtain ⟨e1, st2, hpe, hok⟩ := PRes_bind_ok h
      injection hok with h1eq h2eq
      subst h1eq
      exact ihPE LOWEST _ e1 st2 hpe
    · intro st e st' h
      rw [parseIfExpression_succ] at h
      obtain ⟨c, st2, hpe, h⟩ := PRes_bind_ok h
      obtain ⟨consq, st3, hbp, h⟩ := PRes_bind_ok h
      have hc := ihPE LOWEST _ c st2 hpe
      have hcq := ihBlk _ consq st3 hbp
      cases consq with
      | none => exact PRes.noConfusion h
      | some consequence =>
        split_ifs at h with helse
        · injection h with h1eq h2eq
          subst h1eq
          simp only [optBlockHasCall] at hcq
          simp [optExprHasCall, exprHasCall, hc, hcq]
        · obtain ⟨alt, st4, hbp2, h⟩ := PRes_bind_ok h
          have halt := ihBlk _ alt st4 hbp2
          cases alt with
          | none => exact PRes.noConfusion h
          | some alternative =>
            injection h with h1eq h2eq
            subst h1eq
            simp only [optBlockHasCall] at hcq halt
            simp [optExprHasCall, exprHasCall, hc, hcq, halt]
    · intro st e st' h
      rw [parseFunctionExpression_succ] at h
      obtain ⟨ps, st2, hpar, h⟩ := PRes_bind_ok h
      obtain ⟨b, st3, hbp, h⟩ := PRes_bind_ok h
      have hb := ihBlk _ b st3 hbp
      cases b with
      | none => exact PRes.noConfusion h
      | some body =>
        injection h with h1eq h2eq
        subst h1eq
        simp only [optBlockHasCall] at hb
        simp [optExprHasCall, exprHasCall, hb]
    · intro acc st s st' hacc h
      rw [programLoop_succ] at h
      split_ifs at h with h1
      · injection h with h1eq h2eq
        subst h1eq
        exact hacc
      · obtain ⟨s1, st2, hps, hrec⟩ := PRes_bind_ok h
        have hs1 := ihStmt st s1 st2 hps
        refine ihProg (acc ++ [s1]) st2 s st' ?_ hrec
        simp [stmtsHaveCall_append, stmtsHaveCall_singleton, hacc, hs1]

/- ------------------------------------------------------------------ -/
/- Claim theorems                                                      -/
/- ------------------------------------------------------------------ -/

/-- C3: parsing a single-expression statement and rendering the AST gives
the fully parenthesized text on the three spec examples — precedence
(`1 + 2 * 3;` gives `(1 + (2 * 3))`), left associativity (`1 - 2 - 3;`
gives `((1 - 2) - 3)`) and prefix binding (`-1 * 2;` gives `((-1) * 2)`). -/
theorem c3_render_precedence :
    sourceRender "1 + 2 * 3;" = some "(1 + (2 * 3))" ∧
    sourceRender "1 - 2 - 3;" = some "((1 - 2) - 3)" ∧
    sourceRender "-1 * 2;" = some "((-1) * 2)" :=
  ⟨rfl, rfl, rfl⟩

/-- C4 (code bug): on input `if (1) 2;` the parser panics through the nil
interface type assertion `blockStatementParselet(p).(*ast.BlockStatement)`
in `parseIfExpression`, so `ParseProgram` does not return a Program for
every input; the claim's own concrete example `(1 + 2;` does produce a
Program together with one diagnostic. -/
theorem c4_panic_on_missing_block :
    parseSource "if (1) 2;" = .goPanic nilBlockAssertionMsg ∧
    parseSource "(1 + 2;" =
      .ok [some (.exprS { type := LPAREN, literal := "(" }
            (some (.infE { type := PLUS, literal := "+" }
              (some (.intLit { type := INT, literal := "1" } 1)) "+"
              (some (.intLit { type := INT, literal := "2" } 2)))))]
        { toks := [],
          errors := ["Could not properly consume token: \x7b; ;\x7d expected: )"] } :=
  ⟨rfl, rfl⟩

/-- C2 (code bug): an integer literal whose text overflows 64-bit signed
range produces exactly one diagnostic, an absent expression, and parsing
continues past the literal — but because `parseIntegerLiteral` consumes the
token before formatting the message, the diagnostic quotes the literal of
the FOLLOWING token (here `";"`), not the offending literal's text. -/
theorem c2_overflow_diagnostic :
    parseSource "99999999999999999999;" =
      .ok [some (.exprS { type := INT, literal := "99999999999999999999" } none)]
        { toks := [], errors := ["Could not parse \";\" as integer"] } ∧
    goParseInt "99999999999999999999" = none :=
  ⟨rfl, rfl⟩

/-- C1 counterexample: parsing `add(1, 2);` succeeds but produces no
`CallExpression` node anywhere — `parser.New` registers no infix parser
for `(` and gives it no precedence, so the call form parses as an
identifier statement followed by a grouped expression (with diagnostics). -/
theorem c1_counterexample :
    parseSource "add(1, 2);" =
      .ok [some (.exprS { type := IDENT, literal := "add" }
              (some (.identE ⟨{ type := IDENT, literal := "add" }, "add"⟩))),
           some (.exprS { type := LPAREN, literal := "(" }
              (some (.intLit { type := INT, literal := "1" } 1))),
           some (.exprS { type := INT, literal := "2" }
              (some (.intLit { type := INT, literal := "2" } 2))),
           some (.exprS { type := RPAREN, literal := ")" } none)]
        { toks := [],
          errors := ["Could not properly consume token: \x7b, ,\x7d expected: )",
                     "Unable to consume prefix: \x7b) )\x7d"] } ∧
    stmtsHaveCall (resultStmts (parseSource "add(1, 2);")) = false :=
  ⟨rfl, rfl⟩

/-- C1 (amended): a `CallExpression` node renders as `<callee>(<args>)`
with comma-space-separated arguments, but the parser never produces such a
node for any token stream (`parser.New` registers no infix parser for `(`
and assigns it no precedence), so `add(1, 2);` parses with diagnostics and
without any CallExpression. -/
theorem c1_amended :
    (∀ (ts : List Token) (stmts : List (Option Stmt)) (st : PState),
      ParseProgram ts = .ok stmts st → stmtsHaveCall stmts = false) ∧
    renderExpr (.callE { type := LPAREN, literal := "(" }
      (.identE ⟨{ type := IDENT, literal := "add" }, "add"⟩)
      [.intLit { type := INT, literal := "1" } 1,
       .intLit { type := INT, literal := "2" } 2]) = some "add(1, 2)" ∧
    sourceErrors "add(1, 2);" ≠ [] := by
  refine ⟨?_, rfl, by decide⟩
  intro ts stmts st h
  exact (parser_no_call
    (parserFuel ts)).2.2.2.2.2.2.2.2.2.2.2.2.2 [] ⟨ts, []⟩ stmts st rfl h

/-- C1 witness: the call-freedom of parser output applied to the parse of
`add(1, 2);` itself. -/
theorem c1_witness :
    stmtsHaveCall (resultStmts (parseSource "add(1, 2);")) = false :=
  c1_amended.1 (lexAll "add(1, 2);".data) (resultStmts (parseSource "add(1, 2);"))
    { toks := [],
      errors := ["Could not properly consume token: \x7b, ,\x7d expected: )",
                 "Unable to consume prefix: \x7b) )\x7d"] } rfl

/-- C9 counterexample: rendering is not idempotent under re-parsing.
`if (x) { y };` parses to a Program rendering as `"ifx y"`; parsing that
rendering yields a Program rendering as `"ifxy"`, a different string. -/
theorem c9_counterexample :
    sourceRender "if (x) { y };" = some "ifx y" ∧
    sourceRender "ifx y" = some "ifxy" ∧
    "ifx y" ≠ "ifxy" :=
  ⟨rfl, rfl, by decide⟩

/-- C9 (corrected, amended): on the call/if/fn-free single-expression
fragment the parser itself produces (`ClosedExpr`), the round trip is
idempotent: re-parsing the rendered text of such an expression yields a
Program with exactly one expression statement holding the identical
expression, the re-parsed Program renders character-for-character
identically, and no diagnostic is recorded. -/
theorem c9_amended (E : Expr) (hE : ClosedExpr E) :
    (∃ tok, resultStmts (parseSource (crender E)) = [some (.exprS tok (some E))]) ∧
    sourceRender (crender E) = some (crender E) ∧
    sourceErrors (crender E) = [] := by
  obtain ⟨tok, hP⟩ := parseProgram_closed E hE
  have hps : parseSource (crender E) = .ok [some (.exprS tok (some E))] ⟨[], []⟩ := by
    unfold parseSource
    rw [lexAll_crender E hE, hP]
  refine ⟨⟨tok, by simp only [hps, resultStmts]⟩, ?_, ?_⟩
  · unfold sourceRender
    rw [hps]
    show renderProgram [some (.exprS tok (some E))] = some (crender E)
    simp only [renderProgram, renderStmts, optRenderStmt, renderStmt, optRenderOptExpr,
      renderExpr_closed E hE]
    rw [string_append_empty]
  · unfold sourceErrors
    rw [hps]
    rfl

/-- C9 witness: the closed fragment expression `(1 + x)` — an infix node
over an integer literal and an identifier — satisfies the fragment
conditions, and its rendering re-parses to an identical rendering with no
diagnostics. -/
theorem c9_witness :
    ClosedExpr (Expr.infE ⟨PLUS, "+"⟩ (some (.intLit ⟨INT, "1"⟩ 1)) "+"
      (some (.identE ⟨⟨IDENT, "x"⟩, "x"⟩))) ∧
    sourceRender (crender (Expr.infE ⟨PLUS, "+"⟩ (some (.intLit ⟨INT, "1"⟩ 1)) "+"
      (some (.identE ⟨⟨IDENT, "x"⟩, "x"⟩)))) =
      some (crender (Expr.infE ⟨PLUS, "+"⟩ (some (.intLit ⟨INT, "1"⟩ 1)) "+"
        (some (.identE ⟨⟨IDENT, "x"⟩, "x"⟩)))) ∧
    sourceErrors (crender (Expr.infE ⟨PLUS, "+"⟩ (some (.intLit ⟨INT, "1"⟩ 1)) "+"
      (some (.identE ⟨⟨IDENT, "x"⟩, "x"⟩)))) = [] := by
  have hc : ClosedExpr (Expr.infE ⟨PLUS, "+"⟩ (some (.intLit ⟨INT, "1"⟩ 1)) "+"
      (some (.identE ⟨⟨IDENT, "x"⟩, "x"⟩))) :=
    ClosedExpr.inf ⟨PLUS, "+"⟩ _ _ (by decide)
      (ClosedExpr.int "1" 1 (by decide) (by decide) (by decide))
      (ClosedExpr.ident "x" (by decide) (by decide) (by decide))
  exact ⟨hc, (c9_amended _ hc).2.1, (c9_amended _ hc).2.2⟩

/-- C5: once the lexer's cursor has passed the end of the input (so, by
well-formedness of reachable states, `ch` is the 0 sentinel), `NextToken`
returns the `EOF` token with empty literal text and leaves the lexer state
exactly unchanged — hence every subsequent call returns the same thing. -/
theorem c5_nextToken_terminal (l : Lexer) (hwf : LexerWF l)
    (hend : l.input.length ≤ l.position) :
    NextToken l = ({ type := EOF, literal := "" }, l) := by
  have hch : l.ch = NUL := by
    rcases hwf with ⟨h1, h2, h3⟩
    rw [h3, dif_neg (by omega)]
  unfold NextToken
  rw [consumeWhitespaces_at_nul l hch]
  unfold runLexlets eofLexlet
  simp [hch]

/-- C5 witness: the freshly created lexer on empty input is past the end,
and `NextToken` there is the unchanged-state `EOF` result. -/
theorem c5_witness :
    NextToken (lexerNew []) = ({ type := EOF, literal := "" }, lexerNew []) :=
  c5_nextToken_terminal (lexerNew []) (by decide) (by decide)

/-- C6: when the current token is not the end marker, `consumeToken t`
always advances exactly one token, and it appends exactly one diagnostic
(of the `Could not properly consume token` form) precisely when the
current token's kind differs from `t`; on a match the diagnostics are
unchanged. -/
theorem c6_consumeToken_discipline (t : TokType) (st : PState)
    (h : (currentToken st).type ≠ EOF) :
    (consumeToken t st).toks = st.toks.tail ∧
    st.toks.length = (consumeToken t st).toks.length + 1 ∧
    (consumeToken t st).errors =
      (if (currentToken st).type = t then st.errors
       else st.errors ++ ["Could not properly consume token: " ++
         fmtToken (currentToken st) ++ " expected: " ++ t]) := by
  rcases hts : st.toks with _ | ⟨a, rest⟩
  · exact absurd (by simp [currentToken, hts, eofToken]) h
  · have hcur : currentToken st = a := by simp [currentToken, hts]
    have hane : a.type ≠ EOF := by rw [hcur] at h; exact h
    by_cases hm : a.type = t
    · have htne : t ≠ EOF := hm ▸ hane
      simp [consumeToken, consumeNextToken, addError, hcur, hts, hm, htne, currentToken]
    · simp [consumeToken, consumeNextToken, addError, hcur, hts, hm, hane, currentToken]

/-- C6 witness: a concrete mismatching consumption (`)` expected while the
current token is `;`) advances one token and appends one diagnostic. -/
theorem c6_witness :
    (consumeToken RPAREN ⟨[⟨SEMICOLON, ";"⟩], []⟩).toks =
      ([⟨SEMICOLON, ";"⟩] : List Token).tail ∧
    ([⟨SEMICOLON, ";"⟩] : List Token).length =
      (consumeToken RPAREN ⟨[⟨SEMICOLON, ";"⟩], []⟩).toks.length + 1 ∧
    (consumeToken RPAREN ⟨[⟨SEMICOLON, ";"⟩], []⟩).errors =
      (if (currentToken ⟨[⟨SEMICOLON, ";"⟩], []⟩).type = RPAREN then ([] : List String)
       else [] ++ ["Could not properly consume token: " ++
         fmtToken (currentToken ⟨[⟨SEMICOLON, ";"⟩], []⟩) ++ " expected: " ++ RPAREN]) :=
  c6_consumeToken_discipline RPAREN ⟨[⟨SEMICOLON, ";"⟩], []⟩ (by decide)

/-- C8 counterexample: with an empty parameter list a stray comma before
`)` is not tolerated silently in the claimed sense — `fn(,) { x }` yields
one parameter named `","` (no diagnostic), while `fn() { x }` yields no
parameters, so the two inputs do not produce the same parameters. -/
theorem c8_counterexample :
    firstFuncParams (parseSource "fn(,) { x }") =
      [⟨{ type := COMMA, literal := "," }, ","⟩] ∧
    firstFuncParams (parseSource "fn() { x }") = ([] : List Identifier) ∧
    sourceErrors "fn(,) { x }" = [] ∧
    firstFuncParams (parseSource "fn(,) { x }") ≠
      firstFuncParams (parseSource "fn() { x }") :=
  ⟨rfl, rfl, rfl, by decide⟩

/-- C7: `ParseProgram` terminates for every finite token stream — the fuel
`10·length + 30` that `ParseProgram` runs on is proven sufficient, so the
statement loop (and every loop and recursion inside it) completes; each
loop iteration at a non-end-marker token parses exactly one statement and
appends it; and once the current token is the end marker the stream stays
put (`consumeNextToken` is a no-op), so the loop's exit is stable. -/
theorem c7_parseProgram_terminates :
    (∀ ts : List Token, ParseProgram ts ≠ .fuelOut) ∧
    (∀ (n : Nat) (acc : List (Option Stmt)) (st : PState),
      (currentToken st).type ≠ EOF →
      programLoop (n + 1) acc st =
        (parseStatement n st).bind fun s st2 => programLoop n (acc ++ [s]) st2) ∧
    (∀ st : PState, (currentToken st).type = EOF → consumeNextToken st = st) := by
  refine ⟨?_, ?_, ?_⟩
  · intro ts
    exact (parser_adequacy (parserFuel ts)).2.2.2.2.2.2.2.2.2.2.2.2.2.2 [] ⟨ts, []⟩
      (by simp [parserFuel])
  · intro n acc st h
    rw [programLoop_succ, if_neg h]
  · intro st h
    unfold consumeNextToken
    rw [if_pos h]

/-- C7 witness: the full parse of a one-token stream completes, one
iteration of the loop at a non-end token is one statement parse plus
append, and `consumeNextToken` at the end marker is the identity. -/
theorem c7_witness :
    (ParseProgram [⟨INT, "1"⟩] ≠ .fuelOut) ∧
    (programLoop 1 [] ⟨[⟨INT, "1"⟩], []⟩ =
      (parseStatement 0 ⟨[⟨INT, "1"⟩], []⟩).bind fun s st2 =>
        programLoop 0 ([] ++ [s]) st2) ∧
    (consumeNextToken ⟨[], []⟩ = ⟨[], []⟩) :=
  ⟨c7_parseProgram_terminates.1 [⟨INT, "1"⟩],
   c7_parseProgram_terminates.2.1 0 [] ⟨[⟨INT, "1"⟩], []⟩ (by decide),
   c7_parseProgram_terminates.2.2 ⟨[], []⟩ (by decide)⟩

/-- C8 (amended): `fn(x, y) { x + y; }` parses into a FunctionLiteral with
exactly the two parameters named `x` and `y` and a body holding exactly
one ExpressionStatement, with no diagnostics; and for every NON-EMPTY
parameter list, a stray comma immediately before `)` is silently
tolerated: the parameter loop result is literally identical with and
without it (same parameters, no extra diagnostic).  For the empty
parameter list the stray comma instead becomes a parameter named `","`
(see the counterexample). -/
theorem c8_amended :
    (firstFuncParams (parseSource "fn(x, y) { x + y; }") =
      [⟨{ type := IDENT, literal := "x" }, "x"⟩, ⟨{ type := IDENT, literal := "y" }, "y"⟩] ∧
     firstFuncBody (parseSource "fn(x, y) { x + y; }") =
      some (.mk { type := LBRACE, literal := "\x7b" }
        [some (.exprS { type := IDENT, literal := "x" }
          (some (.infE { type := PLUS, literal := "+" }
            (some (.identE ⟨{ type := IDENT, literal := "x" }, "x"⟩)) "+"
            (some (.identE ⟨{ type := IDENT, literal := "y" }, "y"⟩)))))]) ∧
     sourceErrors "fn(x, y) { x + y; }" = []) ∧
    (∀ (ps : List Token), ps ≠ [] → (∀ t ∈ ps, t.type ≠ EOF ∧ t.type ≠ RPAREN) →
      ∀ (fuel : Nat) (acc : List Identifier) (rest : List Token) (errs : List String),
        paramLoop fuel acc ⟨paramTokens ps ++ commaToken :: rparenToken :: rest, errs⟩ =
        paramLoop fuel acc ⟨paramTokens ps ++ rparenToken :: rest, errs⟩) :=
  ⟨⟨rfl, rfl, rfl⟩, paramLoop_trailing_comma⟩

/-- C8 witness: the trailing-comma tolerance at the concrete one-element
parameter list `x`. -/
theorem c8_witness :
    paramLoop 5 [] ⟨paramTokens [⟨IDENT, "x"⟩] ++ commaToken :: rparenToken :: [], []⟩ =
      paramLoop 5 [] ⟨paramTokens [⟨IDENT, "x"⟩] ++ rparenToken :: [], []⟩ :=
  c8_amended.2 [⟨IDENT, "x"⟩] (by decide) (by decide) 5 [] [] []

/-- C10: the parameter loop accepts a token of any kind in parameter
position: `fn(1) { x }` parses with a single parameter named `"1"` and
zero diagnostics, and in general one loop iteration on any current token
that is neither `EOF` nor `)` yields a parameter `Identifier` carrying
that token's literal text while recording no diagnostic. -/
theorem c10_any_token_parameter :
    (parseSource "fn(1) { x }" =
      .ok [some (.exprS { type := FUNCTION, literal := "fn" }
        (some (.funcLit { type := FUNCTION, literal := "fn" }
          [⟨{ type := INT, literal := "1" }, "1"⟩]
          (.mk { type := LBRACE, literal := "\x7b" }
            [some (.exprS { type := IDENT, literal := "x" }
              (some (.identE ⟨{ type := IDENT, literal := "x" }, "x"⟩)))]))))]
        { toks := [], errors := [] }) ∧
    (∀ (fuel : Nat) (t : Token) (ts : List Token) (acc : List Identifier)
        (errs : List String), t.type ≠ EOF → t.type ≠ RPAREN →
      paramLoop (fuel + 1) acc ⟨t :: ts, errs⟩ =
        paramLoop fuel (acc ++ [⟨t, t.literal⟩])
          (if (currentToken ⟨ts, errs⟩).type = COMMA
           then consumeToken COMMA ⟨ts, errs⟩ else ⟨ts, errs⟩) ∧
      (if (currentToken ⟨ts, errs⟩).type = COMMA
       then consumeToken COMMA ⟨ts, errs⟩ else ⟨ts, errs⟩).errors = errs) :=
  ⟨rfl, fun fuel t ts acc errs h1 h2 => paramLoop_step fuel t ts acc errs h1 h2⟩

/-- C10 witness: the integer token `1` accepted in parameter position. -/
theorem c10_witness :
    (paramLoop 1 [] ⟨[⟨INT, "1"⟩], []⟩ =
      paramLoop 0 ([] ++ [⟨⟨INT, "1"⟩, "1"⟩])
        (if (currentToken ⟨[], []⟩).type = COMMA
         then consumeToken COMMA ⟨[], []⟩ else ⟨[], []⟩)) ∧
    (if (currentToken ⟨[], []⟩).type = COMMA
     then consumeToken COMMA ⟨[], []⟩ else ⟨[], []⟩).errors = [] :=
  c10_any_token_parameter.2 0 ⟨INT, "1"⟩ [] [] [] (by decide) (by decide)

end Monkey
